import Mathlib

/-!
A verification development for the `aiml_bot` package: a shallow embedding
of `utilities.split_sentences`, `pattern_manager.PatternManager`
(`add`, `match`, `star`, the `bot_name` setter) and the template-evaluation
core of `bot.Bot` (`respond`, `_respond`, `_process_element` and the
handlers for text, `template`, `li`, `condition` and `srai` elements),
together with proofs about the behaviour of that code.

Python strings are modelled as Lean `String`, Python dicts keyed by strings
or by the integer sentinels of `PatternManager` as association lists with a
sum-type key, and Python exceptions as an explicit `Except` result.
Machine details that cannot influence the verified claims (the reentrant
lock, stderr logging, `time.clock` timing) are omitted.  The recursive
template evaluator is embedded with an explicit fuel parameter; running out
of fuel is a distinguished error value, and fuel-independence is proved
where termination of the Python code is at stake.
-/

namespace Aiml

/-! ### Python string primitives -/

/-- Helper for `pySplit`: walk the characters, accumulating the current
word (in reverse) and emitting it at whitespace boundaries. -/
def pySplitAux : List Char → List Char → List String
  | [], acc => if acc = [] then [] else [String.mk acc.reverse]
  | c :: cs, acc =>
    if c.isWhitespace then
      if acc = [] then pySplitAux cs []
      else String.mk acc.reverse :: pySplitAux cs []
    else pySplitAux cs (c :: acc)

/-- Python `str.split()` with no arguments: split on whitespace runs,
discarding empty fragments. -/
def pySplit (s : String) : List String :=
  pySplitAux s.data []

/-- Python `str.upper()` (ASCII case mapping, which is all the verified
inputs use). -/
def pyUpper (s : String) : String :=
  String.mk (s.data.map Char.toUpper)

/-- Python `str.strip()`: remove leading and trailing whitespace. -/
def pyStrip (s : String) : String :=
  String.mk
    (((s.data.dropWhile Char.isWhitespace).reverse.dropWhile
      Char.isWhitespace).reverse)

/-- The characters of `pattern_manager.PUNCTUATION`
(`"\"`~!@#$%^&*()-_=+[{]}\\|;:',<.>/?"`), written out one by one.  The
apostrophe and backtick are produced from their code points. -/
def punctChars : List Char :=
  ['"', Char.ofNat 96, '~', '!', '@', '#', '$', '%', '^', '&', '*', '(',
   ')', '-', '_', '=', '+', '[', '{', ']', '}', '\\', '|', ';', ':',
   Char.ofNat 39, ',', '<', '.', '>', '/', '?']

def isPunct (c : Char) : Bool :=
  punctChars.contains c

/-- `re.sub(self._punctuation_re, " ", s)`: replace every punctuation
character by a single space. -/
def punctToSpace (s : String) : String :=
  String.mk (s.data.map (fun c => if isPunct c then ' ' else c))

/-- `re.sub("\s+", " ", s)` on a character list: each run of whitespace
collapses to one space. -/
def collapseWsAux : List Char → List Char
  | [] => []
  | [c] => [if c.isWhitespace then ' ' else c]
  | c :: d :: cs =>
    if c.isWhitespace ∧ d.isWhitespace then collapseWsAux (d :: cs)
    else (if c.isWhitespace then ' ' else c) :: collapseWsAux (d :: cs)

/-- `re.sub(self._whitespace_re, " ", s)`. -/
def collapseWs (s : String) : String :=
  String.mk (collapseWsAux s.data)

/-! ### `utilities.split_sentences` -/

/-- `text.index(c, position)` wrapped in `try`/`except`: the least index of
`c` at or after `pos`, or `len(text) + 1` when there is none (the sentinel
the Python code substitutes on `ValueError`). -/
def sentenceIdx (cs : List Char) (c : Char) (pos : Nat) : Nat :=
  match (cs.drop pos).findIdx? (fun x => x = c) with
  | some i => i + pos
  | none => cs.length + 1

theorem sentenceIdx_ge (cs : List Char) (c : Char) (pos : Nat)
    (h : pos < cs.length) : pos < sentenceIdx cs c pos + 1 := by
  unfold sentenceIdx
  cases hf : (cs.drop pos).findIdx? (fun x => x = c) <;> simp [hf] <;> omega

/-- The scanning loop of `split_sentences`: from `position`, cut at the
nearest `.`/`?`/`!`, emit the trimmed slice when non-empty, continue past
the delimiter.

The loop advances `position` past the cut on every iteration, so it runs at
most `len(text)` times; `fuel` is a structural bound on the remaining
iterations (the wrapper passes `len(text) + 1`, which can never be
exhausted because `position` strictly increases). -/
def splitSentencesAux (cs : List Char) : Nat → Nat → List String
  | 0, _ => []
  | fuel1 + 1, pos =>
    if pos < cs.length then
      let e := min (min (sentenceIdx cs '.' pos) (sentenceIdx cs '?' pos))
        (sentenceIdx cs '!' pos)
      let sentence := pyStrip (String.mk ((cs.drop pos).take (e - pos)))
      let rest := splitSentencesAux cs fuel1 (e + 1)
      if sentence = "" then rest else sentence :: rest
    else []

/-- `utilities.split_sentences`: scan for sentence fragments; if none were
found, fall back to the single trimmed input. -/
def splitSentences (text : String) : List String :=
  let results := splitSentencesAux text.data (text.length + 1) 0
  if results = [] then [pyStrip text] else results

/-! ### `pattern_manager.PatternManager`: the trie and `add`

A node of the Python trie is a dict whose keys are literal words (strings)
or the integer sentinels `_UNDERSCORE`, `_STAR`, `_TEMPLATE`, `_THAT`,
`_TOPIC`, `_BOT_NAME`.  All keys except `_TEMPLATE` map to child dicts;
`_TEMPLATE` maps to the stored template.  We model the key space as a sum
type and a node as an association list of children together with an
optional template (the `_TEMPLATE` entry).  The template type is a
parameter `α`; the bot instantiates it with the element type `Elem`. -/

inductive Key where
  | word (w : String)
  | underscore
  | star
  | botName
  | that
  | topic
deriving DecidableEq

inductive Node (α : Type) where
  | mk (children : List (Key × Node α)) (tmpl : Option α)

def Node.children : Node α → List (Key × Node α)
  | .mk cs _ => cs

def Node.tmpl : Node α → Option α
  | .mk _ t => t

def emptyNode : Node α := .mk [] none

/-- Dict lookup `node[key]` on the children of a node. -/
def findChild (l : List (Key × Node α)) (k : Key) : Option (Node α) :=
  match l with
  | [] => none
  | (k1, n) :: rest => if k1 = k then some n else findChild rest k

/-- Dict assignment `node[key] = child` (update in place, or append). -/
def setChild (l : List (Key × Node α)) (k : Key) (n : Node α) :
    List (Key × Node α) :=
  match l with
  | [] => [(k, n)]
  | (k1, n1) :: rest =>
    if k1 = k then (k, n) :: rest else (k1, n1) :: setChild rest k n

/-- The state of a `PatternManager` instance: `_root`, `_template_count`
and `_bot_name` (defaulting to `"Nameless"`). -/
structure PM (α : Type) where
  root : Node α
  templateCount : Nat
  botName : String

def emptyPM : PM α :=
  { root := emptyNode, templateCount := 0, botName := "Nameless" }

/-- The `bot_name` setter: `self._bot_name = ''.join(value.split())`
(all whitespace removed, case untouched). -/
def setBotName (pm : PM α) (value : String) : PM α :=
  { pm with botName := String.join (pySplit value) }

/-- Word-to-key mapping of the main-pattern loop of `add`:
`"_"`, `"*"` and `"BOT_NAME"` become sentinels. -/
def keyOfPatternWord (w : String) : Key :=
  if w = "_" then .underscore
  else if w = "*" then .star
  else if w = "BOT_NAME" then .botName
  else .word w

/-- Word-to-key mapping of the `that`/`topic` loops of `add`: only `"_"`
and `"*"` become sentinels (`"BOT_NAME"` stays a literal word there). -/
def keyOfContextWord (w : String) : Key :=
  if w = "_" then .underscore
  else if w = "*" then .star
  else .word w

/-- The sequence of edges `add(pattern, that, topic, template)` walks:
the pattern words, then (for non-empty `that`) a `_THAT` edge and the
that-words, then (for non-empty `topic`) a `_TOPIC` edge and the
topic-words.  Note the emptiness tests are on the raw strings, exactly as
in the source (`if len(that) > 0`). -/
def addPathKeys (pattern that topic : String) : List Key :=
  (pySplit pattern).map keyOfPatternWord
    ++ (if that.length > 0 then
          Key.that :: (pySplit that).map keyOfContextWord
        else [])
    ++ (if topic.length > 0 then
          Key.topic :: (pySplit topic).map keyOfContextWord
        else [])

/-- Walk/create the nodes along `path` and store `tmpl` at the end.  The
returned flag is true exactly when the final node had no `_TEMPLATE` entry
yet (the condition under which `add` increments `_template_count`). -/
def insertPath (n : Node α) (path : List Key) (tmpl : α) : Node α × Bool :=
  match path with
  | [] => (.mk n.children (some tmpl), n.tmpl.isNone)
  | k :: rest =>
    let child := (findChild n.children k).getD emptyNode
    (.mk (setChild n.children k (insertPath child rest tmpl).1) n.tmpl,
      (insertPath child rest tmpl).2)

/-- `PatternManager.add`. -/
def addPM (pm : PM α) (pattern that topic : String) (tmpl : α) : PM α :=
  { pm with
    root := (insertPath pm.root (addPathKeys pattern that topic) tmpl).1
    templateCount :=
      pm.templateCount
        + (if (insertPath pm.root (addPathKeys pattern that topic) tmpl).2
           then 1 else 0) }

/-- Follow `path` through the trie and return the template stored at its
end, if any. -/
def lookupPath (n : Node α) (path : List Key) : Option α :=
  match path with
  | [] => n.tmpl
  | k :: rest =>
    match findChild n.children k with
    | none => none
    | some child => lookupPath child rest

/-! ### `PatternManager._match` and `PatternManager.match` -/

/-- Fall-through sequencing of the branches of `_match`: a branch that
produces a template returns immediately, otherwise the next branch runs. -/
def firstSome (a b : Option β) : Option β :=
  match a with
  | some r => some r
  | none => b

/-- Termination measure helper: how many context segments are still
pending. -/
def segsLeft (thatWords topicWords : List String) : Nat :=
  (if thatWords = [] then 0 else 1) + (if topicWords = [] then 0 else 1)

theorem segsLeft_that_lt (thatWords topicWords : List String)
    (h : thatWords ≠ []) :
    segsLeft [] topicWords < segsLeft thatWords topicWords := by
  unfold segsLeft
  rcases eq_or_ne topicWords [] with h2 | h2 <;> simp [h, h2]

theorem segsLeft_topic_lt (thatWords topicWords : List String)
    (h1 : thatWords = []) (h2 : topicWords ≠ []) :
    segsLeft [] [] < segsLeft thatWords topicWords := by
  subst h1
  simp [segsLeft, h2]

/-- A bound on the recursion depth of `_match` from the given arguments:
each recursive call strictly decreases this quantity (the word list shrinks
within a segment; entering the `that`/`topic` segment trades a unit of
`segsLeft` for the new word list). -/
def matchBound (words thatWords topicWords : List String) : Nat :=
  words.length + thatWords.length + topicWords.length
    + segsLeft thatWords topicWords + 2

/-- The body of `PatternManager._match(words, thatWords, topicWords, root)`
indexed by structural fuel, returning `some (pattern, template)` on success
(`pattern` is the edge path the match took) and `none` where the Python
code returns a `None` template.  The greedy wildcard sweep
(`for j in range(len(suffix)+1)`) is expressed as the first defined result
over `ws.tails` (the suffixes `suffix[j:]` for `j = 0..len(suffix)`, in
increasing order of `j`), which agrees with the loop because the loop is
pure and returns at the first success.  `matchBound` fuel always suffices
(see `pmMatch3F_stable`), so the exhaustion branch is unreachable from the
wrapper `pmMatch3`. -/
def pmMatch3F (bn : String) :
    Nat → List String → List String → List String → Node α →
    Option (List Key × α)
  | 0, _, _, _, _ => none
  | fuel + 1, words, thatWords, topicWords, root =>
    match words with
    | [] =>
      let attempt : Option (List Key × α) :=
        if thatWords ≠ [] then
          match findChild root.children .that with
          | none => none
          | some child =>
            match pmMatch3F bn fuel thatWords [] topicWords child with
            | some (p, t) => some (Key.that :: p, t)
            | none => none
        else if topicWords ≠ [] then
          match findChild root.children .topic with
          | none => none
          | some child =>
            match pmMatch3F bn fuel topicWords [] [] child with
            | some (p, t) => some (Key.topic :: p, t)
            | none => none
        else none
      firstSome attempt (root.tmpl.map (fun t => ([], t)))
    | w :: ws =>
      let sweep : Node α → Key → Option (List Key × α) := fun child k =>
        ((ws.tails.map (fun suf =>
            pmMatch3F bn fuel suf thatWords topicWords child)).findSome?
          id).map (fun r => (k :: r.1, r.2))
      let viaUnderscore :=
        match findChild root.children .underscore with
        | none => none
        | some child => sweep child .underscore
      let viaWord :=
        match findChild root.children (.word w) with
        | none => none
        | some child =>
          match pmMatch3F bn fuel ws thatWords topicWords child with
          | some (p, t) => some (Key.word w :: p, t)
          | none => none
      let viaBot :=
        match findChild root.children .botName with
        | none => none
        | some child =>
          if w = bn then
            match pmMatch3F bn fuel ws thatWords topicWords child with
            | some (p, t) => some (Key.word w :: p, t)
            | none => none
          else none
      let viaStar :=
        match findChild root.children .star with
        | none => none
        | some child => sweep child .star
      firstSome viaUnderscore (firstSome viaWord (firstSome viaBot viaStar))

/-- `PatternManager._match`, run with its canonical (always sufficient)
fuel. -/
def pmMatch3 (bn : String) (words thatWords topicWords : List String)
    (root : Node α) : Option (List Key × α) :=
  pmMatch3F bn (matchBound words thatWords topicWords) words thatWords
    topicWords root

/-- `PatternManager.match(pattern, that, topic)`: normalize the inputs
(substituting the dummy tokens for empty `that`/`topic`), run `_match` from
the root, and return only the template. -/
def pmMatchStr (pm : PM α) (pattern that topic : String) : Option α :=
  if pattern = "" then none
  else
    let textInput := punctToSpace (pyUpper pattern)
    let that1 := if pyStrip that = "" then "ULTRABOGUSDUMMYTHAT" else that
    let thatInput := collapseWs (punctToSpace (pyUpper that1))
    let topic1 := if pyStrip topic = "" then "ULTRABOGUSDUMMYTOPIC" else topic
    let topicInput := punctToSpace (pyUpper topic1)
    (pmMatch3 pm.botName (pySplit textInput) (pySplit thatInput)
      (pySplit topicInput) pm.root).map (fun r => r.2)

/-- `_match` together with the reconstructed path, on the same normalized
inputs that `PatternManager.star` feeds it (`star`, unlike `match`, also
collapses whitespace runs in all three inputs before splitting). -/
def pmStarParts (pm : PM α) (pattern that topic : String) :
    Option (List Key × α) :=
  let textInput := collapseWs (punctToSpace (pyUpper pattern))
  let that1 := if pyStrip that = "" then "ULTRABOGUSDUMMYTHAT" else that
  let thatInput := collapseWs (punctToSpace (pyUpper that1))
  let topic1 := if pyStrip topic = "" then "ULTRABOGUSDUMMYTOPIC" else topic
  let topicInput := collapseWs (punctToSpace (pyUpper topic1))
  pmMatch3 pm.botName (pySplit textInput) (pySplit thatInput)
    (pySplit topicInput) pm.root

/-! ### `PatternManager.star` -/

/-- The `starType` argument of `star`; the Python code raises `ValueError`
on any other string, so the three legal values form the whole type. -/
inductive StarKind where
  | star
  | thatstar
  | topicstar
deriving DecidableEq

/-- Python exceptions that the embedded code can raise, plus the
distinguished `outOfFuel` marker used by the fuel-indexed evaluator (it
corresponds to no Python behaviour and is proved unreachable for
sufficient fuel). -/
inductive PyErr where
  | keyError (key : String)
  | valueError
  | assertionError
  | indexError
  | outOfFuel
deriving DecidableEq

/-- Does this path element count as a wildcard for `star`
(`patMatch[j] in [self._STAR, self._UNDERSCORE]`)? -/
def isWildKey : Key → Bool
  | .star => true
  | .underscore => true
  | _ => false

/-- `' '.join(l)`. -/
def joinSpace : List String → String
  | [] => ""
  | [w] => w
  | w :: rest => w ++ " " ++ joinSpace rest

/-- The inner loop of `star` (`for k in range(i, len(words)): ...`),
locating the end of the wildcard that starts at word `i`; returns the
final values of the Python variables `k` and `end`.  `end` is an integer
because the Python code can set it to `k - 1 = -1`.  The loop runs at most
`len(words) - i` iterations, which is exactly the fuel passed by the one
call site (where `i < len(words)` always holds). -/
def starInnerGo (seg : List Key) (ws : List String) (j : Nat) (e0 : Int) :
    Nat → Nat → Nat × Int
  | 0, k => (k, e0)
  | fuel1 + 1, k =>
    if k < ws.length then
      if j + 1 = seg.length then (k, (ws.length : Int))
      else if seg.getD (j + 1) Key.that = Key.word (ws.getD k "") then
        (k, (k : Int) - 1)
      else if k + 1 < ws.length then starInnerGo seg ws j e0 fuel1 (k + 1)
      else (k, e0)
    else (k, e0)

/-- The scanning loop of `star` (`for i in range(len(words)): ...`),
threading the Python variables `i, j, numStars, k, start, end,
foundTheRightStar`; returns the final `(foundTheRightStar, start, end)`.
`i` increases by one per iteration, so `len(words)` fuel suffices. -/
def starScanGo (seg : List Key) (ws : List String) (index : Nat) :
    Nat → Nat → Nat → Nat → Nat → Nat → Int → Bool → Bool × Nat × Int
  | 0, _, _, _, _, st, e, found => (found, st, e)
  | fuel1 + 1, i, j, ns, k, st, e, found =>
    if i < ws.length then
      if i < k then starScanGo seg ws index fuel1 (i + 1) j ns k st e found
      else if j = seg.length then (found, st, e)
      else if found = false then
        if isWildKey (seg.getD j Key.that) then
          let ns1 := ns + 1
          let found1 := if ns1 = index then true else found
          let st1 := i
          let ke := starInnerGo seg ws j e (ws.length - i) i
          if found1 then (found1, st1, ke.2)
          else starScanGo seg ws index fuel1 (i + 1) (j + 1) ns1 ke.1 st1
            ke.2 found1
        else starScanGo seg ws index fuel1 (i + 1) (j + 1) ns k st e found
      else starScanGo seg ws index fuel1 (i + 1) (j + 1) ns k st e found
    else (found, st, e)

/-- The scan with the Python initial state
(`start = end = j = numStars = k = 0`, `foundTheRightStar = False`). -/
def starScan (seg : List Key) (ws : List String) (index : Nat) :
    Bool × Nat × Int :=
  starScanGo seg ws index ws.length 0 0 0 0 0 0 false

/-- `patMatch.index(k)` guarded by membership (Python raises `ValueError`
when the element is absent). -/
def keyIdx (patMatch : List Key) (k : Key) : Nat :=
  patMatch.findIdx (fun x => x = k)

/-- `PatternManager.star(starType, pattern, that, topic, index)`.  The
result is `Except` because the path slicing (`patMatch.index(...)`) raises
`ValueError` when the matched path has no `_THAT`/`_TOPIC` sentinel (which
happens for rules stored with an empty `that`/`topic`). -/
def pmStar (pm : PM α) (kind : StarKind) (pattern that topic : String)
    (index : Nat) : Except PyErr String :=
  let textInput := collapseWs (punctToSpace (pyUpper pattern))
  let that1 := if pyStrip that = "" then "ULTRABOGUSDUMMYTHAT" else that
  let topic1 := if pyStrip topic = "" then "ULTRABOGUSDUMMYTOPIC" else topic
  match pmStarParts pm pattern that topic with
  | none => .ok ""
  | some (patMatch, _) =>
    let segE : Except PyErr (List Key × List String) :=
      match kind with
      | .star =>
        if Key.that ∈ patMatch then
          .ok (patMatch.take (keyIdx patMatch .that), pySplit textInput)
        else .error .valueError
      | .thatstar =>
        if Key.that ∈ patMatch then
          if Key.topic ∈ patMatch then
            .ok ((patMatch.take (keyIdx patMatch .topic)).drop
                (keyIdx patMatch .that + 1),
              pySplit (collapseWs (punctToSpace (pyUpper that1))))
          else .error .valueError
        else .error .valueError
      | .topicstar =>
        if Key.topic ∈ patMatch then
          .ok (patMatch.drop (keyIdx patMatch .topic + 1),
            pySplit (collapseWs (punctToSpace (pyUpper topic1))))
        else .error .valueError
    match segE with
    | .error err => .error err
    | .ok (seg, ws) =>
      let fse := starScan seg ws index
      if fse.1 then
        let orig : List String :=
          match kind with
          | .star => pySplit pattern
          | .thatstar => pySplit that1
          | .topicstar => pySplit topic1
        .ok (joinSpace ((orig.take (fse.2.2 + 1).toNat).drop fse.2.1))
      else .ok ""

/-! ### The wildcard captures of a match (specification side)

The spec states that `star(kind, ..., k)` returns "exactly the original
substring that the k-th wildcard captured".  The source's `_match` does not
record captures (it reconstructs them afterwards by rescanning), so to
state that property we instrument `_match` with capture recording.
`capsMatch3F` is `pmMatch3F` extended to also return, for each wildcard
edge of the returned path in traversal order (main-pattern wildcards first,
then `that`, then `topic` ones), the exact list of input tokens that
wildcard consumed. -/

/-- Modelled from the spec: `_match` instrumented with the tokens each
wildcard edge consumes.  It follows `pmMatch3F` exactly; the only addition
is the second component of the result.  The wildcard sweep enumerates the
consumed counts `j = 0..len(suffix)` directly so the consumed tokens
(`w :: ws.take j`) can be recorded. -/
def capsMatch3F (bn : String) :
    Nat → List String → List String → List String → Node α →
    Option (List Key × List (List String) × α)
  | 0, _, _, _, _ => none
  | fuel + 1, words, thatWords, topicWords, root =>
    match words with
    | [] =>
      let attempt : Option (List Key × List (List String) × α) :=
        if thatWords ≠ [] then
          match findChild root.children .that with
          | none => none
          | some child =>
            match capsMatch3F bn fuel thatWords [] topicWords child with
            | some (p, cps, t) => some (Key.that :: p, cps, t)
            | none => none
        else if topicWords ≠ [] then
          match findChild root.children .topic with
          | none => none
          | some child =>
            match capsMatch3F bn fuel topicWords [] [] child with
            | some (p, cps, t) => some (Key.topic :: p, cps, t)
            | none => none
        else none
      match attempt with
      | some r => some r
      | none => root.tmpl.map (fun t => ([], [], t))
    | w :: ws =>
      let sweep : Node α → Key → Option (List Key × List (List String) × α) :=
        fun child k =>
        ((List.range (ws.length + 1)).map (fun j =>
            match capsMatch3F bn fuel (ws.drop j) thatWords topicWords
              child with
            | some (p, cps, t) =>
              some (k :: p, (w :: ws.take j) :: cps, t)
            | none => none)).findSome? id
      let viaUnderscore :=
        match findChild root.children .underscore with
        | none => none
        | some child => sweep child .underscore
      let viaWord :=
        match findChild root.children (.word w) with
        | none => none
        | some child =>
          match capsMatch3F bn fuel ws thatWords topicWords child with
          | some (p, cps, t) => some (Key.word w :: p, cps, t)
          | none => none
      let viaBot :=
        match findChild root.children .botName with
        | none => none
        | some child =>
          if w = bn then
            match capsMatch3F bn fuel ws thatWords topicWords child with
            | some (p, cps, t) => some (Key.word w :: p, cps, t)
            | none => none
          else none
      let viaStar :=
        match findChild root.children .star with
        | none => none
        | some child => sweep child .star
      firstSome viaUnderscore (firstSome viaWord (firstSome viaBot viaStar))

/-- Count the wildcard edges of a path slice. -/
def countWild (l : List Key) : Nat :=
  l.countP (fun k => isWildKey k)

/-- Modelled from the spec: the instrumented match on the inputs `star`
normalizes, with canonical fuel. -/
def capsParts (pm : PM α) (pattern that topic : String) :
    Option (List Key × List (List String) × α) :=
  let textInput := collapseWs (punctToSpace (pyUpper pattern))
  let that1 := if pyStrip that = "" then "ULTRABOGUSDUMMYTHAT" else that
  let thatInput := collapseWs (punctToSpace (pyUpper that1))
  let topic1 := if pyStrip topic = "" then "ULTRABOGUSDUMMYTOPIC" else topic
  let topicInput := collapseWs (punctToSpace (pyUpper topic1))
  let ws := pySplit textInput
  let tws := pySplit thatInput
  let pws := pySplit topicInput
  capsMatch3F pm.botName (matchBound ws tws pws) ws tws pws pm.root

/-- Modelled from the spec: the whitespace-joined token sequence captured
by the `index`-th (1-based) wildcard of the requested segment of the
matched rule, or `none` when there is no match or the index is out of
range.  The captures are listed in path order, so the segment's captures
are addressed by offsetting with the wildcard counts of the earlier
segments. -/
def specStar (pm : PM α) (kind : StarKind) (pattern that topic : String)
    (index : Nat) : Option String :=
  match capsParts pm pattern that topic with
  | none => none
  | some (path, caps, _) =>
    let mainSeg :=
      if Key.that ∈ path then path.take (keyIdx path .that) else path
    let thatSeg :=
      if Key.that ∈ path then
        if Key.topic ∈ path then
          (path.take (keyIdx path .topic)).drop (keyIdx path .that + 1)
        else path.drop (keyIdx path .that + 1)
      else []
    let nMain := countWild mainSeg
    let nThat := countWild thatSeg
    match kind with
    | .star =>
      if 1 ≤ index ∧ index ≤ nMain then
        (caps.get? (index - 1)).map joinSpace
      else none
    | .thatstar =>
      if 1 ≤ index ∧ index ≤ nThat then
        (caps.get? (nMain + index - 1)).map joinSpace
      else none
    | .topicstar =>
      if 1 ≤ index ∧ index ≤ countWild (path.drop (keyIdx path .topic + 1))
          ∧ Key.topic ∈ path then
        (caps.get? (nMain + nThat + index - 1)).map joinSpace
      else none

/-! ### `bot.Bot`: sessions and the template evaluator

Template elements are the Python lists `[tag, attrs, *children]`.  The
embedding covers the sublanguage of elements the verified claims range
over: text leaves and the `template`, `li`, `condition` and `srai` tags
(each modelled from its `_process_*` handler).  A session dict is modelled
as a record whose fields are the three reserved keys plus the ordinary
predicates (the reserved keys are disjoint from predicate names because
`get_predicate`/`set_predicate` assert against them).  The reentrant
`respond` lock and the stderr warnings are omitted; the
`isinstance(..., list)` guards on the histories always succeed in the
typed model. -/

inductive Elem where
  | text (preserve : Bool) (content : String)
  | li (attrs : List (String × String)) (children : List Elem)
  | condition (attrs : List (String × String)) (children : List Elem)
  | template (children : List Elem)
  | srai (children : List Elem)

structure SessionData where
  predicates : List (String × String)
  inputHistory : List String
  outputHistory : List String
  inputStack : List String

def emptySession : SessionData :=
  { predicates := [], inputHistory := [], outputHistory := [],
    inputStack := [] }

structure BotState where
  sessions : List (String × SessionData)
  botPredicates : List (String × String)
  brain : PM Elem

/-- Dict lookup on a string-keyed dict. -/
def lookupStr (l : List (String × β)) (k : String) : Option β :=
  match l with
  | [] => none
  | (k1, v) :: rest => if k1 = k then some v else lookupStr rest k

/-- Dict assignment on a string-keyed dict. -/
def setStr (l : List (String × β)) (k : String) (v : β) :
    List (String × β) :=
  match l with
  | [] => [(k, v)]
  | (k1, v1) :: rest =>
    if k1 = k then (k, v) :: rest else (k1, v1) :: setStr rest k v

def getSession (b : BotState) (sid : String) : Option SessionData :=
  lookupStr b.sessions sid

/-- `Bot.add_session`: create the session (with its reserved lists) if it
does not exist yet. -/
def addSession (b : BotState) (sid : String) : BotState :=
  match getSession b sid with
  | some _ => b
  | none => { b with sessions := setStr b.sessions sid emptySession }

def modifySession (b : BotState) (sid : String)
    (f : SessionData → SessionData) : BotState :=
  let b1 := addSession b sid
  { b1 with
    sessions :=
      setStr b1.sessions sid
        (f ((lookupStr b1.sessions sid).getD emptySession)) }

def stackOf (b : BotState) (sid : String) : List String :=
  ((getSession b sid).getD emptySession).inputStack

def inHistOf (b : BotState) (sid : String) : List String :=
  ((getSession b sid).getD emptySession).inputHistory

def outHistOf (b : BotState) (sid : String) : List String :=
  ((getSession b sid).getD emptySession).outputHistory

/-- `Bot.set_input_stack` (which itself ensures the session exists). -/
def setStack (b : BotState) (sid : String) (st : List String) : BotState :=
  modifySession b sid (fun sd => { sd with inputStack := st })

def setInHist (b : BotState) (sid : String) (h : List String) : BotState :=
  modifySession b sid (fun sd => { sd with inputHistory := h })

def setOutHist (b : BotState) (sid : String) (h : List String) : BotState :=
  modifySession b sid (fun sd => { sd with outputHistory := h })

/-- `Bot.get_predicate`: asserts the name is not reserved, raises
`KeyError` for a missing session, and defaults to `""` for a missing
predicate. -/
def getPredicate (b : BotState) (sid name : String) : Except PyErr String :=
  if name = "<INPUT STACK>" ∨ name = "<INPUT HISTORY>"
      ∨ name = "<OUTPUT HISTORY>" then
    .error .assertionError
  else
    match getSession b sid with
    | none => .error (.keyError sid)
    | some sd => .ok ((lookupStr sd.predicates name).getD "")

/-- `while len(history) > self._max_history_size: history.pop(0)` with
`_max_history_size = 10`. -/
def trimHist : List String → List String
  | [] => []
  | x :: rest => if (x :: rest).length > 10 then trimHist rest else x :: rest

def liAttrs : Elem → List (String × String)
  | .li a _ => a
  | _ => []

def isLiElem : Elem → Bool
  | .li _ _ => true
  | _ => false

/-- The work items of the evaluator: processing one element
(`_process_element` dispatch), a list of children (the
`for e in element[2:]: response += ...` pattern shared by the handlers),
the `<li>` scanning loop of `_process_condition` (carrying the original
list's last item for the default-item check that runs when the loop ends
without a match), and a recursive `_respond` call. -/
inductive Task where
  | elem (e : Elem)
  | children (es : List Elem)
  | condLoop (name? : Option String) (lastItem : Elem) (items : List Elem)
    (idx total : Nat)
  | resp (text : String)

/-- The template evaluator and `_respond`, as one fuel-indexed function.
Every recursive call consumes one unit of fuel, so the recursion is
structural; exhaustion returns the distinguished `outOfFuel` error, proved
unreachable for sufficient fuel.  `sub` is the `normal` word substituter
(a `WordSub` instance; its substitution table is configuration data, so it
is taken as an opaque function).

Python semantics preserved here: the `except` blocks of
`_process_condition` re-raise (`raise`) after logging, so a `KeyError`
from a missing `name`/`value` attribute propagates; `_respond` pushes the
input on the session's input stack and pops it only on the non-exception
path; exceptions leave all state changes made so far in place. -/
def run (sub : String → String) (sid : String) :
    Nat → BotState → Task → BotState × Except PyErr String
  | 0, b, _ => (b, .error .outOfFuel)
  | fuel + 1, b, task =>
    match task with
    | .elem e =>
      match e with
      | .text preserve content =>
        (b, .ok (if preserve then content else collapseWs content))
      | .template cs => run sub sid fuel b (.children cs)
      | .li _ cs => run sub sid fuel b (.children cs)
      | .srai cs =>
        match run sub sid fuel b (.children cs) with
        | (b1, .ok s) => run sub sid fuel b1 (.resp s)
        | r => r
      | .condition attrs cs =>
        let name? := lookupStr attrs "name"
        let value? := lookupStr attrs "value"
        match name?, value? with
        | some nm, some v =>
          match getPredicate b sid nm with
          | .error err => (b, .error err)
          | .ok pv =>
            if pv = v then run sub sid fuel b (.children cs)
            else (b, .ok "")
        | _, _ =>
          let items := cs.filter isLiElem
          match items.getLast? with
          | none => (b, .ok "")
          | some lastItem =>
            run sub sid fuel b (.condLoop name? lastItem items 0 items.length)
    | .children es =>
      match es with
      | [] => (b, .ok "")
      | e :: rest =>
        match run sub sid fuel b (.elem e) with
        | (b1, .ok s1) =>
          match run sub sid fuel b1 (.children rest) with
          | (b2, .ok s2) => (b2, .ok (s1 ++ s2))
          | r => r
        | r => r
    | .condLoop name? lastItem items idx total =>
      match items with
      | [] =>
        let la := liAttrs lastItem
        if (lookupStr la "name").isSome ∨ (lookupStr la "value").isSome then
          (b, .ok "")
        else run sub sid fuel b (.elem lastItem)
      | li1 :: rest =>
        let la := liAttrs li1
        if la = [] ∧ idx + 1 = total then
          run sub sid fuel b (.condLoop name? lastItem [] idx total)
        else
          match
            (match name? with
             | some n => Except.ok n
             | none =>
               match lookupStr la "name" with
               | some n => Except.ok n
               | none => Except.error (PyErr.keyError "name")) with
          | .error err => (b, .error err)
          | .ok liName =>
            match lookupStr la "value" with
            | none => (b, .error (.keyError "value"))
            | some liValue =>
              match getPredicate b sid liName with
              | .error err => (b, .error err)
              | .ok pv =>
                if pv = liValue then run sub sid fuel b (.elem li1)
                else
                  run sub sid fuel b
                    (.condLoop name? lastItem rest (idx + 1) total)
    | .resp text =>
      if text = "" then (b, .ok "")
      else
        let b0 := addSession b sid
        let stack := stackOf b0 sid
        if stack.length > 100 then (b0, .ok "")
        else
          let b1 := setStack b0 sid (stack ++ [text])
          let subbedInput := sub text
          let that := ((outHistOf b1 sid).getLast?).getD ""
          let subbedThat := sub that
          match getPredicate b1 sid "topic" with
          | .error err => (b1, .error err)
          | .ok topic =>
            let subbedTopic := sub topic
            let step : BotState × Except PyErr String :=
              match pmMatchStr b1.brain subbedInput subbedThat
                subbedTopic with
              | none => (b1, .ok "")
              | some elem =>
                match run sub sid fuel b1 (.elem elem) with
                | (b2, .ok r) => (b2, .ok (pyStrip (pyStrip r ++ " ")))
                | r => r
            match step with
            | (b2, .error err) => (b2, .error err)
            | (b2, .ok resp) =>
              let st2 := stackOf b2 sid
              match st2.getLast? with
              | none => (b2, .error .indexError)
              | some _ => (setStack b2 sid st2.dropLast, .ok resp)

/-- `Bot._respond(text, session_id)` at the given fuel. -/
def respondInner (fuel : Nat) (sub : String → String) (b : BotState)
    (text sid : String) : BotState × Except PyErr String :=
  run sub sid fuel b (.resp text)

/-- The per-sentence loop of `Bot.respond`: record the input in the
history, fetch `_respond`'s answer, record it in the output history, and
accumulate `response + "  "`. -/
def respondLoop (fuel : Nat) (sub : String → String) (sid : String) :
    BotState → List String → String → BotState × Except PyErr String
  | b, [], acc => (b, .ok acc)
  | b, s :: rest, acc =>
    let b0 := addSession b sid
    let b1 := setInHist b0 sid (trimHist (inHistOf b0 sid ++ [s]))
    match respondInner fuel sub b1 s sid with
    | (b2, .error err) => (b2, .error err)
    | (b2, .ok r) =>
      let b3 := addSession b2 sid
      let b4 := setOutHist b3 sid (trimHist (outHistOf b3 sid ++ [r]))
      respondLoop fuel sub sid b4 rest (acc ++ r ++ "  ")

/-- `Bot.respond(text, session_id)`: empty input short-circuits; otherwise
ensure the session, process each sentence, trim the accumulated response
and assert the input stack is empty. -/
def respond (fuel : Nat) (sub : String → String) (b : BotState)
    (text sid : String) : BotState × Except PyErr String :=
  if text = "" then (b, .ok "")
  else
    let b0 := addSession b sid
    match respondLoop fuel sub sid b0 (splitSentences text) "" with
    | (b1, .error err) => (b1, .error err)
    | (b1, .ok acc) =>
      let fin := pyStrip acc
      if stackOf b1 sid = [] then (b1, .ok fin)
      else (b1, .error .assertionError)

/-! ### A termination measure for the evaluator

`run`'s recursion is bounded: the element-structure shrinks within one
`_respond` level, and each nested `_respond` grows the input stack, which
the depth guard caps at 101.  `rankE`/`rankL` measure the element
structure; `rank` extends it to tasks, with `.resp` ranked 0 because the
push that follows it strictly shrinks `101 - |stack|`. -/

mutual

def rankE : Elem → Nat
  | .text _ _ => 1
  | .li _ cs => rankL cs + 1
  | .condition _ cs => 2 * rankL cs + 2
  | .template cs => rankL cs + 1
  | .srai cs => rankL cs + 1

def rankL : List Elem → Nat
  | [] => 0
  | e :: rest => rankE e + 1 + rankL rest

end

def rank : Task → Nat
  | .elem e => rankE e
  | .children es => rankL es
  | .condLoop _ lastItem items _ _ => rankE lastItem + rankL items + 1
  | .resp _ => 0

/-! ### Concrete bots used as evaluation witnesses -/

/-- A one-rule bot: `HI` answers `HELLO`.  No sessions exist yet. -/
def demoBot : BotState :=
  { sessions := [],
    botPredicates := [("name", "Nameless")],
    brain := addPM emptyPM "HI" "" "" (.template [.text true "HELLO"]) }

/-- A self-referential bot: the rule for `X` is `<srai>X</srai>`, so any
response to `X` recurses forever; only the depth guard stops it. -/
def selfBot : BotState :=
  { sessions := [("anonymous", emptySession)],
    botPredicates := [("name", "Nameless")],
    brain := addPM emptyPM "X" "" "" (.template [.srai [.text true "X"]]) }

/-- A bot whose `anonymous` session already has 101 entries on the input
stack, so the very next `_respond` call trips the depth guard. -/
def deepBot : BotState :=
  { sessions := [("anonymous",
      { emptySession with inputStack := List.replicate 101 "X" })],
    botPredicates := [],
    brain := addPM emptyPM "HI" "" "" (.template [.text true "HELLO"]) }

/-- A bot whose only rule answers `HI` with a `<condition>` whose first,
non-final `<li>` is missing its `value` attribute. -/
def badBot : BotState :=
  { sessions := [],
    botPredicates := [],
    brain := addPM emptyPM "HI" "" ""
      (.template [.condition [("name", "gender")]
        [.li [] [.text true "x"], .li [("value", "v")] [.text true "y"]]]) }

/-! ## Lemmas about the trie -/

theorem lookupPath_emptyNode (path : List Key) :
    lookupPath (emptyNode (α := α)) path = none := by
  cases path <;> simp [lookupPath, emptyNode, Node.tmpl, Node.children,
    findChild]

theorem findChild_setChild (l : List (Key × Node α)) (k : Key)
    (n : Node α) : findChild (setChild l k n) k = some n := by
  induction l with
  | nil => simp [setChild, findChild]
  | cons p rest ih =>
    obtain ⟨k1, n1⟩ := p
    by_cases h : k1 = k <;> simp [setChild, findChild, h, ih]

theorem insertPath_lookup (path : List Key) (n : Node α) (t : α) :
    lookupPath (insertPath n path t).1 path = some t := by
  induction path generalizing n with
  | nil => simp [insertPath, lookupPath, Node.tmpl]
  | cons k rest ih =>
    simp [insertPath, lookupPath, Node.children, findChild_setChild, ih]

theorem insertPath_fresh (path : List Key) (n : Node α) (t : α) :
    (insertPath n path t).2 = (lookupPath n path).isNone := by
  induction path generalizing n with
  | nil => simp [insertPath, lookupPath]
  | cons k rest ih =>
    simp only [insertPath, lookupPath]
    cases hf : findChild n.children k with
    | none => simp [hf, ih, lookupPath_emptyNode]
    | some c => simp [hf, ih]

/-- **C7.**  Adding a (pattern, that, topic) triple whose `_TEMPLATE` slot
is fresh and then adding the same triple again increases `template_count`
by exactly one in total: the first `add` increments it, the overwriting
`add` does not, and the template finally stored at the triple's node is
the second one (later definitions win). -/
theorem add_same_triple_counts (pm : PM α) (pattern that topic : String)
    (t1 t2 : α)
    (hfresh : lookupPath pm.root (addPathKeys pattern that topic) = none) :
    (addPM pm pattern that topic t1).templateCount = pm.templateCount + 1 ∧
    (addPM (addPM pm pattern that topic t1) pattern that topic
        t2).templateCount
      = (addPM pm pattern that topic t1).templateCount ∧
    lookupPath
      (addPM (addPM pm pattern that topic t1) pattern that topic t2).root
      (addPathKeys pattern that topic) = some t2 := by
  refine ⟨?_, ?_, ?_⟩
  · simp [addPM, insertPath_fresh, hfresh]
  · simp [addPM, insertPath_fresh, insertPath_lookup]
  · simp [addPM, insertPath_lookup]

/-! ## Lemmas about `_match` on small symbolic tries -/

/-- A leaf node holding a template matches the empty word list whatever the
pending `that`/`topic` words are (their subtree lookups fail, and the
matcher then falls back to the node's own template). -/
theorem pmMatch3F_leaf (bn : String) (f : Nat) (tw pw : List String)
    (t : α) :
    pmMatch3F bn (f + 1) [] tw pw (Node.mk [] (some t)) = some ([], t) := by
  simp only [pmMatch3F, Node.children, Node.tmpl, findChild]
  split_ifs <;> simp [firstSome]

/-- A leaf node matches no non-empty word list. -/
theorem pmMatch3F_leaf_none (bn : String) (f : Nat) (w : String)
    (ws tw pw : List String) (t0 : Option α) :
    pmMatch3F bn (f + 1) (w :: ws) tw pw (Node.mk [] t0) = none := by
  simp [pmMatch3F, Node.children, findChild, firstSome]

/-- A node whose only child is the literal `B` leading to a template leaf
matches exactly the word list `["B"]`. -/
theorem pmMatch3F_bleaf (bn : String) (f : Nat) (ws tw pw : List String)
    (t : α) :
    pmMatch3F bn (f + 1 + 1) ws tw pw
      (Node.mk [(Key.word "B", Node.mk [] (some t))] none)
      = if ws = ["B"] then some ([Key.word "B"], t) else none := by
  match ws with
  | [] =>
    simp only [pmMatch3F, Node.children, Node.tmpl, findChild]
    split_ifs <;> simp_all [firstSome]
  | w :: ws1 =>
    by_cases hw : ("B" : String) = w
    · subst hw
      match ws1 with
      | [] =>
        simp [pmMatch3F, Node.children, Node.tmpl, findChild, firstSome,
          pmMatch3F_leaf]
      | y :: ws2 =>
        simp [pmMatch3F, Node.children, Node.tmpl, findChild, firstSome,
          pmMatch3F_leaf_none]
    · have hw2 : ¬(w = "B") := fun h => hw h.symm
      simp [pmMatch3F, Node.children, findChild, firstSome, hw, hw2]

/-- First-success scan of a list of guarded constants. -/
theorem findSome_ite (v : β) (target : List String)
    (l : List (List String)) :
    ((l.map (fun suf =>
        if suf = target then some v else none)).findSome? id)
      = if target ∈ l then some v else none := by
  induction l with
  | nil => simp
  | cons a rest ih =>
    by_cases ha : a = target
    · simp [ha]
    · have ha2 : ¬target = a := fun h => ha h.symm
      simp [ha, ha2, ih]

/-- The wildcard sweep below `A` in the one-rule trie `A <wild> B`:
matching `m0 :: ms` succeeds exactly when some suffix of `ms` is `["B"]`,
i.e. when `ms` ends in `B` (the wildcard having consumed `m0` and
everything before that final `B`). -/
theorem pmMatch3F_wildnode (bn : String) (f : Nat) (k : Key)
    (hk : k = Key.star ∨ k = Key.underscore) (m0 : String)
    (ms tw pw : List String) (t : α) (hend : ["B"] ∈ ms.tails) :
    pmMatch3F bn (f + 1 + 1 + 1) (m0 :: ms) tw pw
      (Node.mk [(k, Node.mk [(Key.word "B", Node.mk [] (some t))] none)]
        none)
      = some ([k, Key.word "B"], t) := by
  have key : ∀ suf,
      pmMatch3F bn (f + 1 + 1) suf tw pw
        (Node.mk [(Key.word "B", Node.mk [] (some t))] none)
      = if suf = ["B"] then some ([Key.word "B"], t) else none :=
    fun suf => pmMatch3F_bleaf bn f suf tw pw t
  obtain ⟨N, hN⟩ : ∃ N, f + 1 + 1 = N := ⟨_, rfl⟩
  rw [hN] at key ⊢
  rcases hk with hk | hk <;> subst hk <;>
    simp [pmMatch3F, Node.children, findChild, firstSome, key,
      findSome_ite, hend]

/-- The root step for the one-rule trie `A <wild> B`. -/
theorem pmMatch3F_wildroot (bn : String) (f : Nat) (k : Key)
    (hk : k = Key.star ∨ k = Key.underscore) (m0 : String)
    (ms tw pw : List String) (t : α) (hend : ["B"] ∈ ms.tails) :
    pmMatch3F bn (f + 1 + 1 + 1 + 1) ("A" :: m0 :: ms) tw pw
      (Node.mk [(Key.word "A",
        Node.mk [(k, Node.mk [(Key.word "B", Node.mk [] (some t))] none)]
          none)] none)
      = some ([Key.word "A", k, Key.word "B"], t) := by
  have hwild := pmMatch3F_wildnode bn f k hk m0 ms tw pw t hend
  obtain ⟨N, hN⟩ : ∃ N, f + 1 + 1 + 1 = N := ⟨_, rfl⟩
  rw [hN] at hwild ⊢
  rcases hk with hk | hk <;> subst hk <;>
    simp [pmMatch3F, Node.children, findChild, firstSome, hwild]

/-! ## Claims about `split_sentences` -/

theorem sentenceIdx_of_no_occurrence (cs : List Char) (ch : Char)
    (pos : Nat) (h : ∀ c ∈ cs.drop pos, ¬(c = ch)) :
    sentenceIdx cs ch pos = cs.length + 1 := by
  unfold sentenceIdx
  have : (cs.drop pos).findIdx? (fun x => x = ch) = none := by
    rw [List.findIdx?_eq_none_iff]
    intro x hx
    simp [h x hx]
  rw [this]

/-- One unclamped step of the scanning loop. -/
theorem splitSentencesAux_succ (cs : List Char) (fuel1 pos : Nat)
    (h : pos < cs.length) :
    splitSentencesAux cs (fuel1 + 1) pos =
      (if pyStrip (String.mk ((cs.drop pos).take
          (min (min (sentenceIdx cs '.' pos) (sentenceIdx cs '?' pos))
            (sentenceIdx cs '!' pos) - pos))) = ""
       then splitSentencesAux cs fuel1
         (min (min (sentenceIdx cs '.' pos) (sentenceIdx cs '?' pos))
           (sentenceIdx cs '!' pos) + 1)
       else pyStrip (String.mk ((cs.drop pos).take
           (min (min (sentenceIdx cs '.' pos) (sentenceIdx cs '?' pos))
             (sentenceIdx cs '!' pos) - pos)))
         :: splitSentencesAux cs fuel1
           (min (min (sentenceIdx cs '.' pos) (sentenceIdx cs '?' pos))
             (sentenceIdx cs '!' pos) + 1)) := by
  simp only [splitSentencesAux]
  rw [if_pos h]

/-- The scanning loop stops at or past the end of the input. -/
theorem splitSentencesAux_stop (cs : List Char) (fuel pos : Nat)
    (h : ¬pos < cs.length) :
    splitSentencesAux cs fuel pos = [] := by
  cases fuel with
  | zero => simp [splitSentencesAux]
  | succ fuel1 =>
    simp only [splitSentencesAux]
    rw [if_neg h]

/-- Every element produced by the scanning loop is a non-empty trimmed
slice of the input. -/
theorem splitSentencesAux_mem (cs : List Char) :
    ∀ fuel pos e, e ∈ splitSentencesAux cs fuel pos →
      e ≠ "" ∧ ∃ i n, e = pyStrip (String.mk ((cs.drop i).take n)) := by
  intro fuel
  induction fuel with
  | zero =>
    intro pos e he
    simp [splitSentencesAux] at he
  | succ fuel1 ih =>
    intro pos e he
    simp only [splitSentencesAux] at he
    split at he
    · by_cases hs :
        pyStrip (String.mk ((cs.drop pos).take
          (min (min (sentenceIdx cs '.' pos) (sentenceIdx cs '?' pos))
            (sentenceIdx cs '!' pos) - pos))) = ""
      · rw [if_pos hs] at he
        exact ih _ e he
      · rw [if_neg hs] at he
        rcases List.mem_cons.mp he with rfl | he2
        · exact ⟨hs, pos, _, rfl⟩
        · exact ih _ e he2
    · simp at he

/-- **C5, counterexample.**  `split_sentences("")` returns the one-element
list `[""]` (the fallback appends the trimmed whole input), not the empty
list the claim describes. -/
theorem split_sentences_empty_counterexample :
    splitSentences "" = [""] ∧ ([""] : List String) ≠ [] :=
  ⟨rfl, by decide⟩

/-- **C5, amended.**  `split_sentences` never returns the empty list: when
no delimiter slice survives it falls back to the single trimmed input (so
empty input yields `[""]`).  Every element the scanner emits is a
non-empty trimmed slice of the input (only the fallback element can be
empty, in which case the result is exactly `[input.strip()]`), and an
input containing none of `.`, `?`, `!` yields the single trimmed input. -/
theorem split_sentences_amended :
    splitSentences "" = [""] ∧
    (∀ s : String, (∀ c ∈ s.data, ¬(c = '.') ∧ ¬(c = '?') ∧ ¬(c = '!')) →
      splitSentences s = [pyStrip s]) ∧
    (∀ s : String, ∀ e ∈ splitSentences s,
      (e ≠ "" ∧ ∃ i n, e = pyStrip (String.mk ((s.data.drop i).take n))) ∨
      splitSentences s = [pyStrip s]) := by
  refine ⟨rfl, ?_, ?_⟩
  · intro s h
    by_cases h0 : 0 < s.data.length
    · have hdot := sentenceIdx_of_no_occurrence s.data '.' 0
        (fun c hc => (h c (by simpa using hc)).1)
      have hq := sentenceIdx_of_no_occurrence s.data '?' 0
        (fun c hc => (h c (by simpa using hc)).2.1)
      have hex := sentenceIdx_of_no_occurrence s.data '!' 0
        (fun c hc => (h c (by simpa using hc)).2.2)
      have hstep := splitSentencesAux_succ s.data s.length 0 h0
      simp only [hdot, hq, hex, Nat.min_self, Nat.sub_zero,
        List.drop_zero] at hstep
      rw [List.take_of_length_le (by omega)] at hstep
      have hmk : String.mk s.data = s := rfl
      rw [hmk] at hstep
      rw [splitSentencesAux_stop s.data s.length (s.data.length + 1 + 1)
        (by omega)] at hstep
      show (if splitSentencesAux s.data (s.length + 1) 0 = []
        then [pyStrip s] else splitSentencesAux s.data (s.length + 1) 0)
        = [pyStrip s]
      rw [hstep]
      by_cases hs : pyStrip s = "" <;> simp [hs]
    · show (if splitSentencesAux s.data (s.length + 1) 0 = []
        then [pyStrip s] else splitSentencesAux s.data (s.length + 1) 0)
        = [pyStrip s]
      simp [splitSentencesAux_stop s.data (s.length + 1) 0 h0]
  · intro s e he
    unfold splitSentences at he
    by_cases hres : splitSentencesAux s.data (s.length + 1) 0 = []
    · right
      simp [splitSentences, hres]
    · left
      rw [if_neg hres] at he
      exact splitSentencesAux_mem s.data _ 0 e he

/-- Witness for C5 at a concrete delimiter-free input. -/
theorem split_sentences_amended_witness :
    splitSentences "NO DELIMITERS HERE" = [pyStrip "NO DELIMITERS HERE"] :=
  split_sentences_amended.2.1 "NO DELIMITERS HERE" (by decide)

/-! ## Claims about `star` -/

theorem countWild_drop_succ (seg : List Key) (j : Nat)
    (hj : j < seg.length) :
    countWild (seg.drop j)
      = (if isWildKey (seg.getD j Key.that) then 1 else 0)
        + countWild (seg.drop (j + 1)) := by
  have hgd : seg.getD j Key.that = seg[j] := by
    simp [List.getD_eq_getElem?_getD, List.getElem?_eq_getElem hj]
  unfold countWild
  rw [List.drop_eq_getElem_cons hj, List.countP_cons, hgd]
  by_cases hw : isWildKey seg[j]
  · rw [if_pos (show (fun k => isWildKey k) seg[j] = true from hw)]
    omega
  · rw [if_neg (show ¬((fun k => isWildKey k) seg[j] = true) from hw)]
    omega

/-- When the requested wildcard index exceeds the number of wildcards left
in the pattern slice (counting from position `j`, with `ns` wildcards
already seen), the `star` scanning loop never finds its wildcard. -/
theorem starScanGo_not_found (seg : List Key) (ws : List String)
    (index : Nat) :
    ∀ fuel i j ns k st e, ns + countWild (seg.drop j) < index →
      (starScanGo seg ws index fuel i j ns k st e false).1 = false := by
  intro fuel
  induction fuel with
  | zero => intro i j ns k st e _; rfl
  | succ fuel1 ih =>
    intro i j ns k st e hlt
    have hle : countWild (seg.drop (j + 1)) ≤ countWild (seg.drop j) := by
      by_cases hjlen : j < seg.length
      · have hc := countWild_drop_succ seg j hjlen
        rw [hc]
        split <;> omega
      · have hd1 : seg.drop j = [] := List.drop_eq_nil_of_le (by omega)
        have hd2 : seg.drop (j + 1) = [] :=
          List.drop_eq_nil_of_le (by omega)
        rw [hd1, hd2]
    simp only [starScanGo]
    by_cases h1 : i < ws.length
    case neg => rw [if_neg h1]
    rw [if_pos h1]
    by_cases h2 : i < k
    case pos =>
      rw [if_pos h2]
      exact ih (i + 1) j ns k st e hlt
    rw [if_neg h2]
    by_cases h3 : j = seg.length
    case pos => rw [if_pos h3]
    rw [if_neg h3]
    split
    · split
      · rename_i hwild
        have hjlen : j < seg.length := by
          by_contra hge
          have hdef : seg.getD j Key.that = Key.that :=
            List.getD_eq_default _ _ (by omega)
          rw [hdef] at hwild
          simp [isWildKey] at hwild
        have hc := countWild_drop_succ seg j hjlen
        rw [hc, if_pos hwild] at hlt
        have hne : ¬(ns + 1 = index) := by omega
        rw [if_neg hne]
        rw [if_neg Bool.false_ne_true]
        exact ih (i + 1) (j + 1) (ns + 1) _ i _ (by omega)
      · exact ih (i + 1) (j + 1) ns k st e (by omega)
    · exact ih (i + 1) (j + 1) ns k st e (by omega)

/-- **C3, counterexample.**  The claim says `star(k)` returns exactly the
substring the k-th wildcard captured.  For the rule `A * B` (with the
loader's default `that = topic = "*"`) and the input `A B B`, the matcher
resolves the rule with the wildcard capturing the token `B` (as the
instrumented match shows), yet `star` returns `""`: the rescan decides the
wildcard ended before the first later token equal to the pattern word
following it. -/
theorem star_capture_counterexample :
    pmStar (addPM (emptyPM (α := Nat)) "A * B" "*" "*" 7) .star
      "A B B" "" "" 1 = .ok "" ∧
    specStar (addPM (emptyPM (α := Nat)) "A * B" "*" "*" 7) .star
      "A B B" "" "" 1 = some "B" ∧
    ("" : String) ≠ "B" :=
  ⟨rfl, rfl, by decide⟩

/-- **C3, amended.**  `star` returns `""` whenever the match fails (for
every kind).  When a rule matches and the requested segment's delimiting
sentinels are present in the matched path, `star` returns `""` whenever
the index exceeds the number of wildcards in that segment — for the main
(`star`), `that` (`thatstar`) and `topic` (`topicstar`) segments alike.
When the matched path lacks the needed `_THAT`/`_TOPIC` sentinel (a rule
stored with an empty `that`/`topic`), `star` raises `ValueError` rather
than returning `""`.  When the index is in range, the returned text is
reconstructed by rescanning the matched path against the words and need
not equal the captured substring (see the counterexample). -/
theorem star_amended (pm : PM α) (pattern that topic : String)
    (index : Nat) :
    (∀ kind, pmStarParts pm pattern that topic = none →
      pmStar pm kind pattern that topic index = .ok "") ∧
    (∀ path t, pmStarParts pm pattern that topic = some (path, t) →
      Key.that ∈ path →
      countWild (path.take (keyIdx path .that)) < index →
      pmStar pm .star pattern that topic index = .ok "") ∧
    (∀ path t, pmStarParts pm pattern that topic = some (path, t) →
      Key.that ∈ path → Key.topic ∈ path →
      countWild ((path.take (keyIdx path .topic)).drop
        (keyIdx path .that + 1)) < index →
      pmStar pm .thatstar pattern that topic index = .ok "") ∧
    (∀ path t, pmStarParts pm pattern that topic = some (path, t) →
      Key.topic ∈ path →
      countWild (path.drop (keyIdx path .topic + 1)) < index →
      pmStar pm .topicstar pattern that topic index = .ok "") ∧
    (∀ path t, pmStarParts pm pattern that topic = some (path, t) →
      Key.that ∉ path →
      pmStar pm .star pattern that topic index = .error .valueError ∧
      pmStar pm .thatstar pattern that topic index
        = .error .valueError) ∧
    (∀ path t, pmStarParts pm pattern that topic = some (path, t) →
      Key.topic ∉ path →
      pmStar pm .topicstar pattern that topic index
        = .error .valueError ∧
      (Key.that ∈ path →
        pmStar pm .thatstar pattern that topic index
          = .error .valueError)) := by
  refine ⟨?_, ?_, ?_, ?_, ?_, ?_⟩
  · intro kind hnone
    simp [pmStar, hnone]
  · intro path t hsome hmem hcnt
    have hf : ∀ ws : List String,
        (starScan (path.take (keyIdx path .that)) ws index).1 = false := by
      intro ws
      unfold starScan
      apply starScanGo_not_found
      simpa using hcnt
    simp [pmStar, hsome, hmem, hf]
  · intro path t hsome hmem1 hmem2 hcnt
    have hf : ∀ ws : List String,
        (starScan ((path.take (keyIdx path .topic)).drop
          (keyIdx path .that + 1)) ws index).1 = false := by
      intro ws
      unfold starScan
      apply starScanGo_not_found
      simpa using hcnt
    simp [pmStar, hsome, hmem1, hmem2, hf]
  · intro path t hsome hmem hcnt
    have hf : ∀ ws : List String,
        (starScan (path.drop (keyIdx path .topic + 1)) ws index).1
          = false := by
      intro ws
      unfold starScan
      apply starScanGo_not_found
      simpa using hcnt
    simp [pmStar, hsome, hmem, hf]
  · intro path t hsome hnot
    constructor <;> simp [pmStar, hsome, hnot]
  · intro path t hsome hnot
    refine ⟨by simp [pmStar, hsome, hnot], fun hmem => ?_⟩
    simp [pmStar, hsome, hmem, hnot]

/-- Witness for C3: a concrete out-of-range index returns `""`, and a
rule stored with an empty `that` makes `star` raise `ValueError`. -/
theorem star_amended_witness :
    pmStar (addPM (emptyPM (α := Nat)) "A * B" "*" "*" 7) .star
      "A B B" "" "" 5 = .ok "" ∧
    pmStar (addPM (emptyPM (α := Nat)) "HI" "" "" 7) .star
      "HI" "" "" 1 = .error .valueError :=
  ⟨(star_amended (addPM (emptyPM (α := Nat)) "A * B" "*" "*" 7)
      "A B B" "" "" 5).2.1
      [Key.word "A", Key.star, Key.word "B", Key.that, Key.star, Key.topic,
        Key.star] 7 rfl (by decide) (by decide),
    ((star_amended (addPM (emptyPM (α := Nat)) "HI" "" "" 7)
      "HI" "" "" 1).2.2.2.2.1
      [Key.word "HI"] 7 rfl (by decide)).1⟩

/-- A root whose only child is the `BOT_NAME` sentinel leading to a
template leaf matches the single word `w` exactly when `w` equals the
stored bot name (the comparison `first == self._bot_name` is exact: no
case normalization happens). -/
theorem pmMatch3F_botroot (bn w : String) (t : α) (f : Nat) :
    pmMatch3F bn (f + 1 + 1) [w] [] []
      (Node.mk [(Key.botName, Node.mk [] (some t))] none)
      = if w = bn then some ([Key.word w], t) else none := by
  have hleaf := pmMatch3F_leaf (α := α) bn f [] [] t
  obtain ⟨N, hN⟩ : ∃ N, f + 1 = N := ⟨_, rfl⟩
  rw [hN] at hleaf ⊢
  by_cases h : w = bn <;>
    simp [pmMatch3F, Node.children, findChild, firstSome, h, hleaf]

/-- **C2.**  Matcher precedence within a segment: with both `_ X` and
`A X` stored (in either insertion order), input `A X` resolves to the
`UNDERSCORE` rule's template; with both `A B` and `A *` stored (either
order), input `A B` resolves to the literal rule's template. -/
theorem matcher_precedence (t1 t2 : α) :
    pmMatchStr (addPM (addPM emptyPM "_ X" "" "" t1) "A X" "" "" t2)
      "A X" "" "" = some t1 ∧
    pmMatchStr (addPM (addPM emptyPM "A X" "" "" t2) "_ X" "" "" t1)
      "A X" "" "" = some t1 ∧
    pmMatchStr (addPM (addPM emptyPM "A B" "" "" t1) "A *" "" "" t2)
      "A B" "" "" = some t1 ∧
    pmMatchStr (addPM (addPM emptyPM "A *" "" "" t2) "A B" "" "" t1)
      "A B" "" "" = some t1 :=
  ⟨rfl, rfl, rfl, rfl⟩

/-- **C4, counterexample.**  The claim says the `BOT_NAME` edge matches
whenever the current (already uppercased) word equals the bot name
normalized by uppercasing and whitespace stripping.  With the default
mixed-case name `"Nameless"`, the normalized input word `"NAMELESS"`
equals that uppercased stripped name, yet `match` finds nothing: the code
compares against the stored name without any case normalization. -/
theorem botname_case_counterexample :
    pmMatchStr (addPM (emptyPM (α := Nat)) "BOT_NAME" "" "" 7)
      "Nameless" "" "" = none ∧
    pySplit (punctToSpace (pyUpper "Nameless")) = ["NAMELESS"] ∧
    pyUpper (String.join (pySplit "Nameless")) = "NAMELESS" ∧
    ("NAMELESS" : String) ≠ "Nameless" :=
  ⟨rfl, rfl, rfl, by decide⟩

/-- **C4, amended.**  During matching, the `BOT_NAME` edge is taken
exactly when the current input word equals the whitespace-stripped bot
name verbatim (no case normalization is applied to the stored name, so a
mixed-case name never matches the uppercased input). -/
theorem botname_edge_iff (v w : String) (t : α) :
    pmMatch3 (String.join (pySplit v)) [w] [] []
      (Node.mk [(Key.botName, Node.mk [] (some t))] none)
      = some ([Key.word w], t) ↔ w = String.join (pySplit v) := by
  have haux := pmMatch3F_botroot (String.join (pySplit v)) w t 1
  have hb : matchBound [w] [] [] = 1 + 1 + 1 := rfl
  simp only [pmMatch3]
  rw [hb, haux]
  by_cases h : w = String.join (pySplit v) <;> simp [h]

/-- **C6, counterexample.**  The claim says a `*` (or `_`) edge can
consume zero tokens, so that `A * B` matches the two-word input `A B`.
In fact the wildcard branch always consumes the current word plus `j ≥ 0`
further ones, so `A * B` (and `A _ B`) do not match `A B`, while `A C B`
does match. -/
theorem wildcard_zero_counterexample :
    pmMatchStr (addPM (emptyPM (α := Nat)) "A * B" "" "" 7)
      "A B" "" "" = none ∧
    pmMatchStr (addPM (emptyPM (α := Nat)) "A _ B" "" "" 7)
      "A B" "" "" = none ∧
    pmMatchStr (addPM (emptyPM (α := Nat)) "A * B" "" "" 7)
      "A C B" "" "" = some 7 :=
  ⟨rfl, rfl, rfl⟩

/-- **C6, amended.**  Wildcards consume at least one token: with the
single rule `A * B` stored (likewise `A _ B`), every input
`A <mid> B` with `<mid>` non-empty matches (the sweep tries the consumed
lengths in increasing order, and any successful length yields this rule's
template), while the two-word input `A B` does not match.  The context
word lists are the dummy tokens `match` substitutes for empty
`that`/`topic`. -/
theorem wildcard_min_one_token (t : α) (mid : List String)
    (hmid : mid ≠ []) :
    pmMatch3 "Nameless" ("A" :: (mid ++ ["B"])) ["ULTRABOGUSDUMMYTHAT"]
      ["ULTRABOGUSDUMMYTOPIC"]
      (addPM (emptyPM (α := α)) "A * B" "" "" t).root
      = some ([Key.word "A", Key.star, Key.word "B"], t) ∧
    pmMatch3 "Nameless" ("A" :: (mid ++ ["B"])) ["ULTRABOGUSDUMMYTHAT"]
      ["ULTRABOGUSDUMMYTOPIC"]
      (addPM (emptyPM (α := α)) "A _ B" "" "" t).root
      = some ([Key.word "A", Key.underscore, Key.word "B"], t) ∧
    pmMatch3 "Nameless" ["A", "B"] ["ULTRABOGUSDUMMYTHAT"]
      ["ULTRABOGUSDUMMYTOPIC"]
      (addPM (emptyPM (α := α)) "A * B" "" "" t).root = none := by
  obtain ⟨m0, ms, rfl⟩ := List.exists_cons_of_ne_nil hmid
  have hend : ["B"] ∈ (ms ++ ["B"]).tails := by
    rw [List.mem_tails]
    exact List.suffix_append ms ["B"]
  have hb : matchBound ("A" :: (m0 :: ms ++ ["B"]))
      ["ULTRABOGUSDUMMYTHAT"] ["ULTRABOGUSDUMMYTOPIC"]
      = ms.length + 5 + 1 + 1 + 1 + 1 := by
    simp [matchBound, segsLeft]
  refine ⟨?_, ?_, rfl⟩
  · show pmMatch3F "Nameless"
      (matchBound ("A" :: (m0 :: ms ++ ["B"])) ["ULTRABOGUSDUMMYTHAT"]
        ["ULTRABOGUSDUMMYTOPIC"]) ("A" :: (m0 :: ms ++ ["B"]))
      ["ULTRABOGUSDUMMYTHAT"] ["ULTRABOGUSDUMMYTOPIC"]
      (Node.mk [(Key.word "A",
        Node.mk [(Key.star,
          Node.mk [(Key.word "B", Node.mk [] (some t))] none)] none)]
        none) = _
    rw [hb]
    exact pmMatch3F_wildroot "Nameless" (ms.length + 5) Key.star
      (Or.inl rfl) m0 (ms ++ ["B"]) _ _ t hend
  · show pmMatch3F "Nameless"
      (matchBound ("A" :: (m0 :: ms ++ ["B"])) ["ULTRABOGUSDUMMYTHAT"]
        ["ULTRABOGUSDUMMYTOPIC"]) ("A" :: (m0 :: ms ++ ["B"]))
      ["ULTRABOGUSDUMMYTHAT"] ["ULTRABOGUSDUMMYTOPIC"]
      (Node.mk [(Key.word "A",
        Node.mk [(Key.underscore,
          Node.mk [(Key.word "B", Node.mk [] (some t))] none)] none)]
        none) = _
    rw [hb]
    exact pmMatch3F_wildroot "Nameless" (ms.length + 5) Key.underscore
      (Or.inr rfl) m0 (ms ++ ["B"]) _ _ t hend

/-- Witness for C6 at the concrete middle `["C"]`. -/
theorem wildcard_min_one_token_witness :
    (["C"] : List String) ≠ [] ∧
    pmMatch3 "Nameless" ("A" :: (["C"] ++ ["B"])) ["ULTRABOGUSDUMMYTHAT"]
      ["ULTRABOGUSDUMMYTOPIC"]
      (addPM (emptyPM (α := Nat)) "A * B" "" "" 7).root
      = some ([Key.word "A", Key.star, Key.word "B"], 7) :=
  ⟨by decide, (wildcard_min_one_token 7 ["C"] (by decide)).1⟩

/-- Witness for C7 at a concrete fresh slot. -/
theorem add_same_triple_counts_witness :
    (addPM (emptyPM (α := Nat)) "A B" "C *" "" 1).templateCount
      = (emptyPM (α := Nat)).templateCount + 1 ∧
    (addPM (addPM (emptyPM (α := Nat)) "A B" "C *" "" 1) "A B" "C *" ""
        2).templateCount
      = (addPM (emptyPM (α := Nat)) "A B" "C *" "" 1).templateCount ∧
    lookupPath
      (addPM (addPM (emptyPM (α := Nat)) "A B" "C *" "" 1) "A B" "C *" ""
        2).root
      (addPathKeys "A B" "C *" "") = some 2 :=
  add_same_triple_counts (emptyPM (α := Nat)) "A B" "C *" "" 1 2 rfl

/-! ## Session-state lemmas -/

theorem lookupStr_setStr_self (l : List (String × β)) (k : String)
    (v : β) : lookupStr (setStr l k v) k = some v := by
  induction l with
  | nil => simp [setStr, lookupStr]
  | cons p rest ih =>
    obtain ⟨k1, v1⟩ := p
    by_cases h : k1 = k <;> simp [setStr, lookupStr, h, ih]

theorem lookupStr_setStr_ne (l : List (String × β)) (k k2 : String)
    (v : β) (h : k2 ≠ k) :
    lookupStr (setStr l k v) k2 = lookupStr l k2 := by
  induction l with
  | nil => simp [setStr, lookupStr, Ne.symm h]
  | cons p rest ih =>
    obtain ⟨k1, v1⟩ := p
    by_cases h1 : k1 = k
    · subst h1
      simp [setStr, lookupStr, Ne.symm h]
    · simp [setStr, lookupStr, h1, ih]

theorem getSession_addSession (b : BotState) (sid sid2 : String) :
    getSession (addSession b sid) sid2
      = some (((getSession b sid2).getD emptySession)) ∨
    getSession (addSession b sid) sid2 = getSession b sid2 := by
  unfold addSession getSession
  cases h : lookupStr b.sessions sid with
  | some sd => right; rfl
  | none =>
    by_cases h2 : sid2 = sid
    · subst h2
      left
      simp [lookupStr_setStr_self, getSession, h]
    · right
      simp [lookupStr_setStr_ne _ _ _ _ h2]

theorem stackOf_addSession (b : BotState) (sid sid2 : String) :
    stackOf (addSession b sid) sid2 = stackOf b sid2 := by
  unfold stackOf
  rcases getSession_addSession b sid sid2 with h | h <;> rw [h]
  cases getSession b sid2 <;> rfl

theorem inHistOf_addSession (b : BotState) (sid sid2 : String) :
    inHistOf (addSession b sid) sid2 = inHistOf b sid2 := by
  unfold inHistOf
  rcases getSession_addSession b sid sid2 with h | h <;> rw [h]
  cases getSession b sid2 <;> rfl

theorem outHistOf_addSession (b : BotState) (sid sid2 : String) :
    outHistOf (addSession b sid) sid2 = outHistOf b sid2 := by
  unfold outHistOf
  rcases getSession_addSession b sid sid2 with h | h <;> rw [h]
  cases getSession b sid2 <;> rfl

theorem getSession_modifySession_self (b : BotState) (sid : String)
    (f : SessionData → SessionData) :
    getSession (modifySession b sid f) sid
      = some (f ((getSession (addSession b sid) sid).getD emptySession)) := by
  unfold modifySession getSession
  simp [lookupStr_setStr_self]

theorem getSession_modifySession_ne (b : BotState) (sid sid2 : String)
    (f : SessionData → SessionData) (h : sid2 ≠ sid) :
    getSession (modifySession b sid f) sid2
      = getSession (addSession b sid) sid2 := by
  unfold modifySession getSession
  simp [lookupStr_setStr_ne _ _ _ _ h]

theorem stackOf_setStack_self (b : BotState) (sid : String)
    (st : List String) : stackOf (setStack b sid st) sid = st := by
  unfold stackOf setStack
  rw [getSession_modifySession_self]
  rfl

theorem stackOf_setStack_ne (b : BotState) (sid sid2 : String)
    (st : List String) (h : sid2 ≠ sid) :
    stackOf (setStack b sid st) sid2 = stackOf b sid2 := by
  unfold stackOf setStack
  rw [getSession_modifySession_ne _ _ _ _ h]
  exact stackOf_addSession b sid sid2

theorem stackOf_setInHist (b : BotState) (sid sid2 : String)
    (hist : List String) :
    stackOf (setInHist b sid hist) sid2 = stackOf b sid2 := by
  by_cases h : sid2 = sid
  · subst h
    unfold stackOf setInHist
    rw [getSession_modifySession_self]
    exact stackOf_addSession b sid2 sid2
  · unfold stackOf setInHist
    rw [getSession_modifySession_ne _ _ _ _ h]
    exact stackOf_addSession b sid sid2

theorem stackOf_setOutHist (b : BotState) (sid sid2 : String)
    (hist : List String) :
    stackOf (setOutHist b sid hist) sid2 = stackOf b sid2 := by
  by_cases h : sid2 = sid
  · subst h
    unfold stackOf setOutHist
    rw [getSession_modifySession_self]
    exact stackOf_addSession b sid2 sid2
  · unfold stackOf setOutHist
    rw [getSession_modifySession_ne _ _ _ _ h]
    exact stackOf_addSession b sid sid2

/-! ## Stack preservation

`_respond` pushes the input on the session's stack and pops it again on
the non-exception path; every other handler leaves the stacks alone.  So
any evaluator computation that returns normally (no exception) leaves the
input stack of every session exactly as it found it. -/

theorem run_stacks_ok :
    ∀ fuel (sub : String → String) (sid : String) b task b1 s,
      run sub sid fuel b task = (b1, .ok s) →
      ∀ sid2, stackOf b1 sid2 = stackOf b sid2 := by
  intro fuel
  induction fuel with
  | zero =>
    intro sub sid b task b1 s hrun sid2
    simp only [run] at hrun
    simp at hrun
  | succ f ih =>
    intro sub sid b task b1 s hrun sid2
    match task with
    | .elem e =>
      match e with
      | .text p c =>
        simp only [run] at hrun
        cases hrun
        rfl
      | .template cs =>
        simp only [run] at hrun
        exact ih sub sid b (.children cs) b1 s hrun sid2
      | .li a cs =>
        simp only [run] at hrun
        exact ih sub sid b (.children cs) b1 s hrun sid2
      | .srai cs =>
        simp only [run] at hrun
        rcases h1 : run sub sid f b (.children cs) with ⟨bm, rm⟩
        rw [h1] at hrun
        cases rm with
        | error err => simp at hrun
        | ok sm =>
          have e2 := ih sub sid bm (.resp sm) b1 s hrun sid2
          have e1 := ih sub sid b (.children cs) bm sm h1 sid2
          rw [e2, e1]
      | .condition attrs cs =>
        simp only [run] at hrun
        rcases hn : lookupStr attrs "name" with _ | nm <;> rw [hn] at hrun <;>
          (try dsimp only at hrun)
        · rcases hl : (cs.filter isLiElem).getLast? with _ | li1 <;>
            rw [hl] at hrun <;> (try dsimp only at hrun)
          · cases hrun; rfl
          · exact ih sub sid b
              (.condLoop none li1 (cs.filter isLiElem) 0
                (cs.filter isLiElem).length) b1 s hrun sid2
        · rcases hv : lookupStr attrs "value" with _ | v <;>
            rw [hv] at hrun <;> (try dsimp only at hrun)
          · rcases hl : (cs.filter isLiElem).getLast? with _ | li1 <;>
              rw [hl] at hrun <;> (try dsimp only at hrun)
            · cases hrun; rfl
            · exact ih sub sid b
                (.condLoop (some nm) li1 (cs.filter isLiElem) 0
                  (cs.filter isLiElem).length) b1 s hrun sid2
          · rcases hp : getPredicate b sid nm with err | pv <;>
              rw [hp] at hrun <;> (try dsimp only at hrun)
            · simp at hrun
            · split at hrun
              · exact ih sub sid b (.children cs) b1 s hrun sid2
              · cases hrun; rfl
    | .children es =>
      match es with
      | [] =>
        simp only [run] at hrun
        cases hrun
        rfl
      | e :: rest =>
        simp only [run] at hrun
        rcases h1 : run sub sid f b (.elem e) with ⟨bm, rm⟩
        rw [h1] at hrun
        cases rm with
        | error err => simp at hrun
        | ok sm =>
          try dsimp only at hrun
          rcases h2 : run sub sid f bm (.children rest) with ⟨bm2, rm2⟩
          rw [h2] at hrun
          try dsimp only at hrun
          cases rm2 with
          | error err => simp at hrun
          | ok s2 =>
            cases hrun
            rw [ih sub sid bm (.children rest) _ s2 h2 sid2,
              ih sub sid b (.elem e) bm sm h1 sid2]
    | .condLoop name? lastItem items idx total =>
      match items with
      | [] =>
        simp only [run] at hrun
        split at hrun
        · cases hrun; rfl
        · exact ih sub sid b (.elem lastItem) b1 s hrun sid2
      | li1 :: rest =>
        simp only [run] at hrun
        split at hrun
        · exact ih sub sid b (.condLoop name? lastItem [] idx total) b1 s
            hrun sid2
        · cases name? with
          | some nm =>
            try dsimp only at hrun
            rcases hv : lookupStr (liAttrs li1) "value" with _ | v <;>
              rw [hv] at hrun <;> (try dsimp only at hrun)
            · simp at hrun
            · rcases hp : getPredicate b sid nm with err | pv <;>
                rw [hp] at hrun <;> (try dsimp only at hrun)
              · simp at hrun
              · split at hrun
                · exact ih sub sid b (.elem li1) b1 s hrun sid2
                · exact ih sub sid b
                    (.condLoop (some nm) lastItem rest (idx + 1) total) b1 s
                    hrun sid2
          | none =>
            rcases hn : lookupStr (liAttrs li1) "name" with _ | n <;>
              rw [hn] at hrun <;> (try dsimp only at hrun)
            · simp at hrun
            · try dsimp only at hrun
              rcases hv : lookupStr (liAttrs li1) "value" with _ | v <;>
                rw [hv] at hrun <;> (try dsimp only at hrun)
              · simp at hrun
              · rcases hp : getPredicate b sid n with err | pv <;>
                  rw [hp] at hrun <;> (try dsimp only at hrun)
                · simp at hrun
                · split at hrun
                  · exact ih sub sid b (.elem li1) b1 s hrun sid2
                  · exact ih sub sid b
                      (.condLoop none lastItem rest (idx + 1) total) b1 s
                      hrun sid2
    | .resp text =>
      simp only [run] at hrun
      split at hrun
      · cases hrun; rfl
      · split at hrun
        · cases hrun
          exact stackOf_addSession b sid sid2
        · rcases hp : getPredicate
              (setStack (addSession b sid) sid
                (stackOf (addSession b sid) sid ++ [text])) sid "topic"
            with err | topic <;> rw [hp] at hrun <;>
              (try dsimp only at hrun)
          · simp at hrun
          · rcases hm : pmMatchStr
                (setStack (addSession b sid) sid
                  (stackOf (addSession b sid) sid ++ [text])).brain
                (sub text)
                (sub (((outHistOf (setStack (addSession b sid) sid
                  (stackOf (addSession b sid) sid ++ [text]))
                  sid).getLast?).getD ""))
                (sub topic) with _ | elem <;> rw [hm] at hrun <;>
              (try dsimp only at hrun)
            · rw [stackOf_setStack_self, List.getLast?_concat] at hrun
              simp only [] at hrun
              cases hrun
              rw [List.dropLast_concat]
              by_cases hs : sid2 = sid
              · subst hs
                rw [stackOf_setStack_self]
                exact stackOf_addSession b sid2 sid2
              · rw [stackOf_setStack_ne _ _ _ _ hs,
                  stackOf_setStack_ne _ _ _ _ hs,
                  stackOf_addSession]
            · rcases h2 : run sub sid f
                  (setStack (addSession b sid) sid
                    (stackOf (addSession b sid) sid ++ [text]))
                  (.elem elem) with ⟨b2, r2⟩
              rw [h2] at hrun
              cases r2 with
              | error err => simp at hrun
              | ok r =>
                try dsimp only at hrun
                have hst : stackOf b2 sid
                    = stackOf (addSession b sid) sid ++ [text] := by
                  rw [ih sub sid _ (.elem elem) b2 r h2 sid,
                    stackOf_setStack_self]
                rw [hst, List.getLast?_concat] at hrun
                simp only [] at hrun
                cases hrun
                rw [List.dropLast_concat]
                by_cases hs : sid2 = sid
                · subst hs
                  rw [stackOf_setStack_self]
                  exact stackOf_addSession b sid2 sid2
                · rw [stackOf_setStack_ne _ _ _ _ hs,
                    ih sub sid _ (.elem elem) b2 r h2 sid2,
                    stackOf_setStack_ne _ _ _ _ hs,
                    stackOf_addSession]

/-- The per-sentence loop of `respond` preserves every session's input
stack when it returns normally. -/
theorem respondLoop_stacks_ok :
    ∀ sentences fuel (sub : String → String) sid b acc b1 s,
      respondLoop fuel sub sid b sentences acc = (b1, .ok s) →
      ∀ sid2, stackOf b1 sid2 = stackOf b sid2 := by
  intro sentences
  induction sentences with
  | nil =>
    intro fuel sub sid b acc b1 s hrun sid2
    simp only [respondLoop] at hrun
    cases hrun
    rfl
  | cons sen rest ih =>
    intro fuel sub sid b acc b1 s hrun sid2
    simp only [respondLoop, respondInner] at hrun
    rcases h1 : run sub sid fuel
        (setInHist (addSession b sid) sid
          (trimHist (inHistOf (addSession b sid) sid ++ [sen])))
        (.resp sen) with ⟨b2, r2⟩
    rw [h1] at hrun
    cases r2 with
    | error err => simp at hrun
    | ok r =>
      try dsimp only at hrun
      have e1 := ih fuel sub sid _ _ b1 s hrun sid2
      rw [e1, stackOf_setOutHist, stackOf_addSession,
        run_stacks_ok fuel sub sid _ _ b2 r h1 sid2, stackOf_setInHist,
        stackOf_addSession]

/-- **C9.**  If every session's input stack is empty before a `respond`
call and the call returns (rather than raising), then every session's
input stack is empty afterwards: each `_respond` invocation pops the entry
it pushed before returning. -/
theorem respond_stacks_empty (fuel : Nat) (sub : String → String)
    (b : BotState) (text sid : String) (b1 : BotState) (r : String)
    (hempty : ∀ s2, stackOf b s2 = [])
    (hrun : respond fuel sub b text sid = (b1, .ok r)) :
    ∀ s2, stackOf b1 s2 = [] := by
  intro s2
  unfold respond at hrun
  split at hrun
  · cases hrun
    exact hempty s2
  · try dsimp only at hrun
    rcases hl : respondLoop fuel sub sid (addSession b sid)
        (splitSentences text) "" with ⟨bl, rl⟩
    rw [hl] at hrun
    cases rl with
    | error err => simp at hrun
    | ok acc =>
      try dsimp only at hrun
      split at hrun
      · cases hrun
        rw [respondLoop_stacks_ok (splitSentences text) fuel sub sid _ ""
          _ acc hl s2, stackOf_addSession]
        exact hempty s2
      · cases hrun

/-- Witness for C9: after the demo bot answers `HI`, the `anonymous`
session's input stack is empty. -/
theorem respond_stacks_empty_witness :
    stackOf (respond 50 (fun s => s) demoBot "HI" "anonymous").1
      "anonymous" = [] :=
  respond_stacks_empty 50 (fun s => s) demoBot "HI" "anonymous" _ "HELLO"
    (fun _ => rfl) rfl "anonymous"

/-- **C1.**  The claim says a `<condition>` `<li>` missing its required
attributes is skipped and no exception propagates out of the evaluator.
The code disagrees: the `except` blocks of `_process_condition` re-raise
after logging, so a non-final `<li>` without a `value` attribute raises
`KeyError('value')` out of the evaluator and out of `respond`. -/
theorem condition_malformed_li_raises :
    run (fun s => s) "anonymous" 50 selfBot
      (.elem (.condition [("name", "gender")]
        [.li [] [.text true "x"], .li [("value", "v")] [.text true "y"]]))
      = (selfBot, .error (.keyError "value")) ∧
    (respond 50 (fun s => s) badBot "HI" "anonymous").2
      = .error (.keyError "value") :=
  ⟨rfl, rfl⟩

/-- **C10.**  `respond` (and `_respond`) with empty input text return
`""` immediately and leave the bot state completely unchanged: no session
is created, nothing is pushed, no history or predicate is touched. -/
theorem respond_empty_input (fuel : Nat) (sub : String → String)
    (b : BotState) (sid : String) :
    respond fuel sub b "" sid = (b, .ok "") ∧
    respondInner (fuel + 1) sub b "" sid = (b, .ok "") :=
  ⟨rfl, rfl⟩

/-! ## Termination of the evaluator -/

/-- A member's rank is strictly below its list's rank. -/
theorem rankL_mem (es : List Elem) (e : Elem) (he : e ∈ es) :
    rankE e + 1 ≤ rankL es := by
  induction es with
  | nil => cases he
  | cons e1 rest ih =>
    rcases List.mem_cons.mp he with h | h
    · subst h
      simp only [rankL]
      omega
    · have := ih h
      simp only [rankL]
      omega

/-- Filtering cannot increase a list's rank. -/
theorem rankL_filter (p : Elem → Bool) (es : List Elem) :
    rankL (es.filter p) ≤ rankL es := by
  induction es with
  | nil => simp
  | cons e rest ih =>
    by_cases hp : p e
    · rw [List.filter_cons_of_pos hp]
      simp only [rankL]
      omega
    · rw [List.filter_cons_of_neg (by simpa using hp)]
      simp only [rankL]
      omega

theorem mem_of_getLast_eq (l : List β) (a : β) (h : l.getLast? = some a) :
    a ∈ l := by
  induction l with
  | nil => simp at h
  | cons x rest ih =>
    cases rest with
    | nil =>
      simp at h
      simp [h]
    | cons y t =>
      rw [List.getLast?_cons_cons] at h
      exact List.mem_cons_of_mem x (ih h)

/-- `get_predicate` raises only `AssertionError` or `KeyError`, never the
fuel sentinel. -/
theorem getPredicate_not_outOfFuel (b : BotState) (sid nm : String) :
    getPredicate b sid nm ≠ .error .outOfFuel := by
  unfold getPredicate
  split
  · simp
  · split <;> simp

/-- Fuel monotonicity: once `run` completes without exhausting its fuel,
any larger fuel gives the identical result. -/
theorem run_mono :
    ∀ fuel (sub : String → String) (sid : String) b task,
      (run sub sid fuel b task).2 ≠ .error .outOfFuel →
      ∀ fuel2, fuel ≤ fuel2 →
      run sub sid fuel2 b task = run sub sid fuel b task := by
  intro fuel
  induction fuel with
  | zero =>
    intro sub sid b task hne fuel2 h2
    exact absurd rfl hne
  | succ f ih =>
    intro sub sid b task hne fuel2 h2
    obtain ⟨f2, rfl⟩ : ∃ f2, fuel2 = f2 + 1 := ⟨fuel2 - 1, by omega⟩
    have hf : f ≤ f2 := by omega
    match task with
    | .elem e =>
      match e with
      | .text p c => simp only [run]
      | .template cs =>
        simp only [run] at hne ⊢
        exact ih sub sid b (.children cs) hne f2 hf
      | .li a cs =>
        simp only [run] at hne ⊢
        exact ih sub sid b (.children cs) hne f2 hf
      | .srai cs =>
        simp only [run] at hne ⊢
        rcases h1 : run sub sid f b (.children cs) with ⟨bm, rm⟩
        rw [h1] at hne
        cases rm with
        | error err =>
          try dsimp only at hne ⊢
          have h1ne : (run sub sid f b (.children cs)).2
              ≠ .error .outOfFuel := by
            rw [h1]
            exact hne
          rw [ih sub sid b (.children cs) h1ne f2 hf, h1]
        | ok sm =>
          try dsimp only at hne ⊢
          have h1ne : (run sub sid f b (.children cs)).2
              ≠ .error .outOfFuel := by
            rw [h1]
            simp
          rw [ih sub sid b (.children cs) h1ne f2 hf, h1]
          try dsimp only
          exact ih sub sid bm (.resp sm) hne f2 hf
      | .condition attrs cs =>
        simp only [run] at hne ⊢
        rcases hn : lookupStr attrs "name" with _ | nm <;>
          rw [hn] at hne <;> (try dsimp only at hne ⊢)
        · rcases hl : (cs.filter isLiElem).getLast? with _ | li1 <;>
            rw [hl] at hne <;> (try dsimp only at hne ⊢)
          exact ih sub sid b
            (.condLoop none li1 (cs.filter isLiElem) 0
              (cs.filter isLiElem).length) hne f2 hf
        · rcases hv : lookupStr attrs "value" with _ | v <;>
            rw [hv] at hne <;> (try dsimp only at hne ⊢)
          · rcases hl : (cs.filter isLiElem).getLast? with _ | li1 <;>
              rw [hl] at hne <;> (try dsimp only at hne ⊢)
            exact ih sub sid b
              (.condLoop (some nm) li1 (cs.filter isLiElem) 0
                (cs.filter isLiElem).length) hne f2 hf
          · rcases hp : getPredicate b sid nm with err | pv <;>
              rw [hp] at hne <;> (try dsimp only at hne ⊢)
            by_cases hpv : pv = v
            · simp only [if_pos hpv] at hne ⊢
              exact ih sub sid b (.children cs) hne f2 hf
            · simp only [if_neg hpv]
    | .children es =>
      match es with
      | [] => simp only [run]
      | e :: rest =>
        simp only [run] at hne ⊢
        rcases h1 : run sub sid f b (.elem e) with ⟨bm, rm⟩
        rw [h1] at hne
        cases rm with
        | error err =>
          try dsimp only at hne ⊢
          have h1ne : (run sub sid f b (.elem e)).2 ≠ .error .outOfFuel := by
            rw [h1]
            exact hne
          rw [ih sub sid b (.elem e) h1ne f2 hf, h1]
        | ok sm =>
          try dsimp only at hne ⊢
          have h1ne : (run sub sid f b (.elem e)).2 ≠ .error .outOfFuel := by
            rw [h1]
            simp
          rw [ih sub sid b (.elem e) h1ne f2 hf, h1]
          try dsimp only
          rcases h2 : run sub sid f bm (.children rest) with ⟨bm2, rm2⟩
          rw [h2] at hne
          cases rm2 with
          | error err =>
            try dsimp only at hne ⊢
            have h2ne : (run sub sid f bm (.children rest)).2
                ≠ .error .outOfFuel := by
              rw [h2]
              exact hne
            rw [ih sub sid bm (.children rest) h2ne f2 hf, h2]
          | ok s2 =>
            try dsimp only at hne ⊢
            have h2ne : (run sub sid f bm (.children rest)).2
                ≠ .error .outOfFuel := by
              rw [h2]
              simp
            rw [ih sub sid bm (.children rest) h2ne f2 hf, h2]
    | .condLoop name? lastItem items idx total =>
      match items with
      | [] =>
        simp only [run] at hne ⊢
        by_cases hatt : (lookupStr (liAttrs lastItem) "name").isSome
            ∨ (lookupStr (liAttrs lastItem) "value").isSome
        · simp only [if_pos hatt]
        · simp only [if_neg hatt] at hne ⊢
          exact ih sub sid b (.elem lastItem) hne f2 hf
      | li1 :: rest =>
        simp only [run] at hne ⊢
        by_cases hshort : liAttrs li1 = [] ∧ idx + 1 = total
        · simp only [if_pos hshort] at hne ⊢
          exact ih sub sid b (.condLoop name? lastItem [] idx total) hne
            f2 hf
        · simp only [if_neg hshort] at hne ⊢
          cases name? with
          | some nm =>
            try dsimp only at hne ⊢
            rcases hv : lookupStr (liAttrs li1) "value" with _ | v <;>
              rw [hv] at hne <;> (try dsimp only at hne ⊢)
            rcases hp : getPredicate b sid nm with err | pv <;>
              rw [hp] at hne <;> (try dsimp only at hne ⊢)
            by_cases hpv : pv = v
            · simp only [if_pos hpv] at hne ⊢
              exact ih sub sid b (.elem li1) hne f2 hf
            · simp only [if_neg hpv] at hne ⊢
              exact ih sub sid b
                (.condLoop (some nm) lastItem rest (idx + 1) total)
                hne f2 hf
          | none =>
            rcases hn : lookupStr (liAttrs li1) "name" with _ | n <;>
              rw [hn] at hne <;> (try dsimp only at hne ⊢)
            rcases hv : lookupStr (liAttrs li1) "value" with _ | v <;>
              rw [hv] at hne <;> (try dsimp only at hne ⊢)
            rcases hp : getPredicate b sid n with err | pv <;>
              rw [hp] at hne <;> (try dsimp only at hne ⊢)
            by_cases hpv : pv = v
            · simp only [if_pos hpv] at hne ⊢
              exact ih sub sid b (.elem li1) hne f2 hf
            · simp only [if_neg hpv] at hne ⊢
              exact ih sub sid b
                (.condLoop none lastItem rest (idx + 1) total)
                hne f2 hf
    | .resp text =>
      simp only [run] at hne ⊢
      by_cases ht : text = ""
      · simp only [if_pos ht]
      · simp only [if_neg ht] at hne ⊢
        by_cases hg : (stackOf (addSession b sid) sid).length > 100
        · simp only [if_pos hg]
        · simp only [if_neg hg] at hne ⊢
          rcases hp : getPredicate
              (setStack (addSession b sid) sid
                (stackOf (addSession b sid) sid ++ [text])) sid "topic"
            with err | topic <;> rw [hp] at hne <;>
              (try dsimp only at hne ⊢)
          rcases hm : pmMatchStr
              (setStack (addSession b sid) sid
                (stackOf (addSession b sid) sid ++ [text])).brain
              (sub text)
              (sub (((outHistOf (setStack (addSession b sid) sid
                (stackOf (addSession b sid) sid ++ [text]))
                sid).getLast?).getD ""))
              (sub topic) with _ | elem <;> rw [hm] at hne <;>
            (try dsimp only at hne ⊢)
          rcases h1 : run sub sid f
              (setStack (addSession b sid) sid
                (stackOf (addSession b sid) sid ++ [text]))
              (.elem elem) with ⟨b2, r2⟩
          rw [h1] at hne
          cases r2 with
          | error err =>
            try dsimp only at hne ⊢
            have h1ne : (run sub sid f
                (setStack (addSession b sid) sid
                  (stackOf (addSession b sid) sid ++ [text]))
                (.elem elem)).2 ≠ .error .outOfFuel := by
              rw [h1]
              exact hne
            rw [ih sub sid _ (.elem elem) h1ne f2 hf, h1]
          | ok r =>
            try dsimp only at hne ⊢
            have h1ne : (run sub sid f
                (setStack (addSession b sid) sid
                  (stackOf (addSession b sid) sid ++ [text]))
                (.elem elem)).2 ≠ .error .outOfFuel := by
              rw [h1]
              simp
            rw [ih sub sid _ (.elem elem) h1ne f2 hf, h1]

/-- Sufficient fuel exists for every evaluator task: within one `_respond`
level the element structure shrinks (measured by `rank`), and each nested
`_respond` pushes onto the input stack, which the depth guard caps, so
`101 - |stack|` shrinks across levels. -/
theorem run_total (sub : String → String) (sid : String) :
    ∀ n m b task,
      101 - (stackOf b sid).length = n → rank task = m →
      ∃ fuel, (run sub sid fuel b task).2 ≠ .error .outOfFuel := by
  intro n
  induction n using Nat.strong_induction_on with
  | _ n ihn =>
    intro m
    induction m using Nat.strong_induction_on with
    | _ m ihm =>
      intro b task hn hm
      match task with
      | .elem e =>
        match e with
        | .text p c =>
          refine ⟨0 + 1, ?_⟩
          simp only [run]
          simp
        | .template cs =>
          obtain ⟨f1, h1⟩ := ihm (rankL cs)
            (by rw [← hm]; simp only [rank, rankE]; omega)
            b (.children cs) hn rfl
          refine ⟨f1 + 1, ?_⟩
          simp only [run]
          exact h1
        | .li a cs =>
          obtain ⟨f1, h1⟩ := ihm (rankL cs)
            (by rw [← hm]; simp only [rank, rankE]; omega)
            b (.children cs) hn rfl
          refine ⟨f1 + 1, ?_⟩
          simp only [run]
          exact h1
        | .srai cs =>
          obtain ⟨f1, h1⟩ := ihm (rankL cs)
            (by rw [← hm]; simp only [rank, rankE]; omega)
            b (.children cs) hn rfl
          rcases hc : run sub sid f1 b (.children cs) with ⟨bm, rm⟩
          rw [hc] at h1
          cases rm with
          | error err =>
            refine ⟨f1 + 1, ?_⟩
            simp only [run]
            rw [hc]
            try dsimp only
            simpa using h1
          | ok sm =>
            have hst : stackOf bm sid = stackOf b sid :=
              run_stacks_ok f1 sub sid b (.children cs) bm sm hc sid
            obtain ⟨f2, h2⟩ := ihm 0
              (by rw [← hm]; simp only [rank, rankE]; omega)
              bm (.resp sm) (by rw [hst]; exact hn) rfl
            refine ⟨max f1 f2 + 1, ?_⟩
            have hm1 : run sub sid (max f1 f2) b (.children cs)
                = (bm, .ok sm) := by
              rw [run_mono f1 sub sid b (.children cs)
                (by rw [hc]; simp) (max f1 f2) (Nat.le_max_left f1 f2), hc]
            have hm2 : run sub sid (max f1 f2) bm (.resp sm)
                = run sub sid f2 bm (.resp sm) :=
              run_mono f2 sub sid bm (.resp sm) h2 (max f1 f2)
                (Nat.le_max_right f1 f2)
            simp only [run]
            rw [hm1]
            try dsimp only
            rw [hm2]
            exact h2
        | .condition attrs cs =>
          rcases hn2 : lookupStr attrs "name" with _ | nm
          · rcases hl : (cs.filter isLiElem).getLast? with _ | li1
            · refine ⟨0 + 1, ?_⟩
              simp only [run]
              rw [hn2]
              try dsimp only
              rw [hl]
              try dsimp only
              simp
            · have hmem : li1 ∈ cs.filter isLiElem :=
                mem_of_getLast_eq _ _ hl
              have hb1 : rankE li1 + 1 ≤ rankL (cs.filter isLiElem) :=
                rankL_mem _ _ hmem
              have hb2 : rankL (cs.filter isLiElem) ≤ rankL cs :=
                rankL_filter _ _
              obtain ⟨f1, h1⟩ := ihm
                (rank (.condLoop none li1 (cs.filter isLiElem) 0
                  (cs.filter isLiElem).length))
                (by rw [← hm]; simp only [rank, rankE]; omega)
                b _ hn rfl
              refine ⟨f1 + 1, ?_⟩
              simp only [run]
              rw [hn2]
              try dsimp only
              rw [hl]
              try dsimp only
              exact h1
          · rcases hv2 : lookupStr attrs "value" with _ | v
            · rcases hl : (cs.filter isLiElem).getLast? with _ | li1
              · refine ⟨0 + 1, ?_⟩
                simp only [run]
                rw [hn2]
                try dsimp only
                rw [hv2]
                try dsimp only
                rw [hl]
                try dsimp only
                simp
              · have hmem : li1 ∈ cs.filter isLiElem :=
                  mem_of_getLast_eq _ _ hl
                have hb1 : rankE li1 + 1 ≤ rankL (cs.filter isLiElem) :=
                  rankL_mem _ _ hmem
                have hb2 : rankL (cs.filter isLiElem) ≤ rankL cs :=
                  rankL_filter _ _
                obtain ⟨f1, h1⟩ := ihm
                  (rank (.condLoop (some nm) li1 (cs.filter isLiElem) 0
                    (cs.filter isLiElem).length))
                  (by rw [← hm]; simp only [rank, rankE]; omega)
                  b _ hn rfl
                refine ⟨f1 + 1, ?_⟩
                simp only [run]
                rw [hn2]
                try dsimp only
                rw [hv2]
                try dsimp only
                rw [hl]
                try dsimp only
                exact h1
            · rcases hp2 : getPredicate b sid nm with err | pv
              · refine ⟨0 + 1, ?_⟩
                have herr := getPredicate_not_outOfFuel b sid nm
                rw [hp2] at herr
                simp only [run]
                rw [hn2]
                try dsimp only
                rw [hv2]
                try dsimp only
                rw [hp2]
                try dsimp only
                exact herr
              · by_cases hpv : pv = v
                · obtain ⟨f1, h1⟩ := ihm (rankL cs)
                    (by rw [← hm]; simp only [rank, rankE]; omega)
                    b (.children cs) hn rfl
                  refine ⟨f1 + 1, ?_⟩
                  simp only [run]
                  rw [hn2]
                  try dsimp only
                  rw [hv2]
                  try dsimp only
                  rw [hp2]
                  try dsimp only
                  rw [if_pos hpv]
                  exact h1
                · refine ⟨0 + 1, ?_⟩
                  simp only [run]
                  rw [hn2]
                  try dsimp only
                  rw [hv2]
                  try dsimp only
                  rw [hp2]
                  try dsimp only
                  rw [if_neg hpv]
                  simp
      | .children es =>
        match es with
        | [] =>
          refine ⟨0 + 1, ?_⟩
          simp only [run]
          simp
        | e :: rest =>
          obtain ⟨f1, h1⟩ := ihm (rankE e)
            (by rw [← hm]; simp only [rank, rankL]; omega)
            b (.elem e) hn rfl
          rcases hc : run sub sid f1 b (.elem e) with ⟨bm, rm⟩
          rw [hc] at h1
          cases rm with
          | error err =>
            refine ⟨f1 + 1, ?_⟩
            simp only [run]
            rw [hc]
            try dsimp only
            simpa using h1
          | ok s1 =>
            have hst : stackOf bm sid = stackOf b sid :=
              run_stacks_ok f1 sub sid b (.elem e) bm s1 hc sid
            obtain ⟨f2, h2⟩ := ihm (rankL rest)
              (by rw [← hm]; simp only [rank, rankL]; omega)
              bm (.children rest) (by rw [hst]; exact hn) rfl
            refine ⟨max f1 f2 + 1, ?_⟩
            have hm1 : run sub sid (max f1 f2) b (.elem e)
                = (bm, .ok s1) := by
              rw [run_mono f1 sub sid b (.elem e)
                (by rw [hc]; simp) (max f1 f2) (Nat.le_max_left f1 f2), hc]
            rcases hc2 : run sub sid f2 bm (.children rest) with ⟨bm2, rm2⟩
            have hm2 : run sub sid (max f1 f2) bm (.children rest)
                = (bm2, rm2) := by
              rw [run_mono f2 sub sid bm (.children rest) h2 (max f1 f2)
                (Nat.le_max_right f1 f2), hc2]
            rw [hc2] at h2
            simp only [run]
            rw [hm1]
            try dsimp only
            rw [hm2]
            cases rm2 with
            | error err =>
              try dsimp only
              simpa using h2
            | ok s2 =>
              try dsimp only
              simp
      | .condLoop name? lastItem items idx total =>
        match items with
        | [] =>
          by_cases hatt : (lookupStr (liAttrs lastItem) "name").isSome
              ∨ (lookupStr (liAttrs lastItem) "value").isSome
          · refine ⟨0 + 1, ?_⟩
            simp only [run]
            rw [if_pos hatt]
            simp
          · obtain ⟨f1, h1⟩ := ihm (rankE lastItem)
              (by rw [← hm]; simp only [rank, rankL]; omega)
              b (.elem lastItem) hn rfl
            refine ⟨f1 + 1, ?_⟩
            simp only [run]
            rw [if_neg hatt]
            exact h1
        | li1 :: rest =>
          by_cases hshort : liAttrs li1 = [] ∧ idx + 1 = total
          · obtain ⟨f1, h1⟩ := ihm
              (rank (.condLoop name? lastItem [] idx total))
              (by rw [← hm]; simp only [rank, rankL]; omega)
              b _ hn rfl
            refine ⟨f1 + 1, ?_⟩
            simp only [run]
            rw [if_pos hshort]
            exact h1
          · cases name? with
            | some nm =>
              rcases hv2 : lookupStr (liAttrs li1) "value" with _ | v
              · refine ⟨0 + 1, ?_⟩
                simp only [run]
                rw [if_neg hshort]
                try dsimp only
                rw [hv2]
                try dsimp only
                simp
              · rcases hp2 : getPredicate b sid nm with err | pv
                · refine ⟨0 + 1, ?_⟩
                  have herr := getPredicate_not_outOfFuel b sid nm
                  rw [hp2] at herr
                  simp only [run]
                  rw [if_neg hshort]
                  try dsimp only
                  rw [hv2]
                  try dsimp only
                  rw [hp2]
                  try dsimp only
                  exact herr
                · by_cases hpv : pv = v
                  · obtain ⟨f1, h1⟩ := ihm (rankE li1)
                      (by rw [← hm]; simp only [rank, rankL]; omega)
                      b (.elem li1) hn rfl
                    refine ⟨f1 + 1, ?_⟩
                    simp only [run]
                    rw [if_neg hshort]
                    try dsimp only
                    rw [hv2]
                    try dsimp only
                    rw [hp2]
                    try dsimp only
                    rw [if_pos hpv]
                    exact h1
                  · obtain ⟨f1, h1⟩ := ihm
                      (rank (.condLoop (some nm) lastItem rest (idx + 1)
                        total))
                      (by rw [← hm]; simp only [rank, rankL]; omega)
                      b _ hn rfl
                    refine ⟨f1 + 1, ?_⟩
                    simp only [run]
                    rw [if_neg hshort]
                    try dsimp only
                    rw [hv2]
                    try dsimp only
                    rw [hp2]
                    try dsimp only
                    rw [if_neg hpv]
                    exact h1
            | none =>
              rcases hn2 : lookupStr (liAttrs li1) "name" with _ | nname
              · refine ⟨0 + 1, ?_⟩
                simp only [run]
                rw [if_neg hshort]
                try dsimp only
                rw [hn2]
                try dsimp only
                simp
              · rcases hv2 : lookupStr (liAttrs li1) "value" with _ | v
                · refine ⟨0 + 1, ?_⟩
                  simp only [run]
                  rw [if_neg hshort]
                  try dsimp only
                  rw [hn2]
                  try dsimp only
                  rw [hv2]
                  try dsimp only
                  simp
                · rcases hp2 : getPredicate b sid nname with err | pv
                  · refine ⟨0 + 1, ?_⟩
                    have herr := getPredicate_not_outOfFuel b sid nname
                    rw [hp2] at herr
                    simp only [run]
                    rw [if_neg hshort]
                    try dsimp only
                    rw [hn2]
                    try dsimp only
                    rw [hv2]
                    try dsimp only
                    rw [hp2]
                    try dsimp only
                    exact herr
                  · by_cases hpv : pv = v
                    · obtain ⟨f1, h1⟩ := ihm (rankE li1)
                        (by rw [← hm]; simp only [rank, rankL]; omega)
                        b (.elem li1) hn rfl
                      refine ⟨f1 + 1, ?_⟩
                      simp only [run]
                      rw [if_neg hshort]
                      try dsimp only
                      rw [hn2]
                      try dsimp only
                      rw [hv2]
                      try dsimp only
                      rw [hp2]
                      try dsimp only
                      rw [if_pos hpv]
                      exact h1
                    · obtain ⟨f1, h1⟩ := ihm
                        (rank (.condLoop none lastItem rest (idx + 1)
                          total))
                        (by rw [← hm]; simp only [rank, rankL]; omega)
                        b _ hn rfl
                      refine ⟨f1 + 1, ?_⟩
                      simp only [run]
                      rw [if_neg hshort]
                      try dsimp only
                      rw [hn2]
                      try dsimp only
                      rw [hv2]
                      try dsimp only
                      rw [hp2]
                      try dsimp only
                      rw [if_neg hpv]
                      exact h1
      | .resp text =>
        by_cases ht : text = ""
        · refine ⟨0 + 1, ?_⟩
          simp only [run]
          rw [if_pos ht]
          simp
        · by_cases hg : (stackOf (addSession b sid) sid).length > 100
          · refine ⟨0 + 1, ?_⟩
            simp only [run]
            rw [if_neg ht]
            try dsimp only
            rw [if_pos hg]
            simp
          · rcases hp2 : getPredicate
                (setStack (addSession b sid) sid
                  (stackOf (addSession b sid) sid ++ [text])) sid "topic"
              with err | topic
            · refine ⟨0 + 1, ?_⟩
              have herr := getPredicate_not_outOfFuel
                (setStack (addSession b sid) sid
                  (stackOf (addSession b sid) sid ++ [text])) sid "topic"
              rw [hp2] at herr
              simp only [run]
              rw [if_neg ht]
              try dsimp only
              rw [if_neg hg]
              try dsimp only
              rw [hp2]
              try dsimp only
              exact herr
            · rcases hm2 : pmMatchStr
                  (setStack (addSession b sid) sid
                    (stackOf (addSession b sid) sid ++ [text])).brain
                  (sub text)
                  (sub (((outHistOf (setStack (addSession b sid) sid
                    (stackOf (addSession b sid) sid ++ [text]))
                    sid).getLast?).getD ""))
                  (sub topic) with _ | elem
              · refine ⟨0 + 1, ?_⟩
                simp only [run]
                rw [if_neg ht]
                try dsimp only
                rw [if_neg hg]
                try dsimp only
                rw [hp2]
                try dsimp only
                rw [hm2]
                try dsimp only
                rw [stackOf_setStack_self, List.getLast?_concat]
                try dsimp only
                simp
              · have hlen : (stackOf (setStack (addSession b sid) sid
                    (stackOf (addSession b sid) sid ++ [text])) sid).length
                    = (stackOf b sid).length + 1 := by
                  rw [stackOf_setStack_self, List.length_append,
                    stackOf_addSession]
                  simp
                have hle : (stackOf b sid).length ≤ 100 := by
                  rw [stackOf_addSession] at hg
                  omega
                have hlt : 101 - (stackOf (setStack (addSession b sid) sid
                    (stackOf (addSession b sid) sid ++ [text]))
                    sid).length < n := by
                  rw [hlen]
                  omega
                obtain ⟨f1, h1⟩ := ihn _ hlt (rankE elem)
                  (setStack (addSession b sid) sid
                    (stackOf (addSession b sid) sid ++ [text]))
                  (.elem elem) rfl rfl
                rcases hc : run sub sid f1
                    (setStack (addSession b sid) sid
                      (stackOf (addSession b sid) sid ++ [text]))
                    (.elem elem) with ⟨b2, r2⟩
                rw [hc] at h1
                refine ⟨f1 + 1, ?_⟩
                simp only [run]
                rw [if_neg ht]
                try dsimp only
                rw [if_neg hg]
                try dsimp only
                rw [hp2]
                try dsimp only
                rw [hm2]
                try dsimp only
                rw [hc]
                cases r2 with
                | error err =>
                  try dsimp only
                  simpa using h1
                | ok r =>
                  try dsimp only
                  have hst : stackOf b2 sid
                      = stackOf (addSession b sid) sid ++ [text] := by
                    rw [run_stacks_ok f1 sub sid _ (.elem elem) b2 r hc sid,
                      stackOf_setStack_self]
                  rw [hst, List.getLast?_concat]
                  try dsimp only
                  simp

/-- Fuel monotonicity for the per-sentence loop of `respond`. -/
theorem respondLoop_mono :
    ∀ (sents : List String) fuel (sub : String → String) (sid : String)
      b acc,
      (respondLoop fuel sub sid b sents acc).2 ≠ .error .outOfFuel →
      ∀ fuel2, fuel ≤ fuel2 →
      respondLoop fuel2 sub sid b sents acc
        = respondLoop fuel sub sid b sents acc := by
  intro sents
  induction sents with
  | nil =>
    intro fuel sub sid b acc hne fuel2 h2
    simp only [respondLoop]
  | cons s rest ih =>
    intro fuel sub sid b acc hne fuel2 h2
    simp only [respondLoop, respondInner] at hne ⊢
    rcases hc : run sub sid fuel
        (setInHist (addSession b sid) sid
          (trimHist (inHistOf (addSession b sid) sid ++ [s])))
        (.resp s) with ⟨b2, r⟩
    rw [hc] at hne
    have hcne : (run sub sid fuel
        (setInHist (addSession b sid) sid
          (trimHist (inHistOf (addSession b sid) sid ++ [s])))
        (.resp s)).2 ≠ .error .outOfFuel := by
      rw [hc]
      cases r with
      | error err =>
        try dsimp only at hne
        exact hne
      | ok rr => simp
    rw [run_mono fuel sub sid _ (.resp s) hcne fuel2 h2, hc]
    cases r with
    | error err => rfl
    | ok rr =>
      try dsimp only at hne ⊢
      exact ih fuel sub sid _ _ hne fuel2 h2

/-- Sufficient fuel exists for the per-sentence loop of `respond`. -/
theorem respondLoop_total (sub : String → String) (sid : String) :
    ∀ (sents : List String) b acc,
      ∃ fuel, (respondLoop fuel sub sid b sents acc).2
        ≠ .error .outOfFuel := by
  intro sents
  induction sents with
  | nil =>
    intro b acc
    refine ⟨0, ?_⟩
    simp only [respondLoop]
    simp
  | cons s rest ih =>
    intro b acc
    obtain ⟨f1, h1⟩ := run_total sub sid _ _
      (setInHist (addSession b sid) sid
        (trimHist (inHistOf (addSession b sid) sid ++ [s])))
      (.resp s) rfl rfl
    rcases hc : run sub sid f1
        (setInHist (addSession b sid) sid
          (trimHist (inHistOf (addSession b sid) sid ++ [s])))
        (.resp s) with ⟨b2, r⟩
    rw [hc] at h1
    cases r with
    | error err =>
      refine ⟨f1, ?_⟩
      simp only [respondLoop, respondInner]
      rw [hc]
      try dsimp only
      simpa using h1
    | ok rr =>
      obtain ⟨f2, h2⟩ := ih (setOutHist (addSession b2 sid) sid
          (trimHist (outHistOf (addSession b2 sid) sid ++ [rr])))
        (acc ++ rr ++ "  ")
      refine ⟨max f1 f2, ?_⟩
      have hm1 : run sub sid (max f1 f2)
          (setInHist (addSession b sid) sid
            (trimHist (inHistOf (addSession b sid) sid ++ [s])))
          (.resp s) = (b2, .ok rr) := by
        rw [run_mono f1 sub sid _ (.resp s) (by rw [hc]; simp)
          (max f1 f2) (Nat.le_max_left f1 f2), hc]
      have hm2 := respondLoop_mono rest f2 sub sid
        (setOutHist (addSession b2 sid) sid
          (trimHist (outHistOf (addSession b2 sid) sid ++ [rr])))
        (acc ++ rr ++ "  ") h2 (max f1 f2) (Nat.le_max_right f1 f2)
      simp only [respondLoop, respondInner]
      rw [hm1]
      try dsimp only
      rw [hm2]
      exact h2

set_option maxRecDepth 10000 in
/-- **C8.**  `_respond` always terminates.  First, with the input stack
already deeper than `MAX_RECURSION = 100` it returns `""` immediately,
touching nothing beyond the session-existence check and without pushing
or matching.  Second, every `respond` call completes: for every bot
state, substituter and input some finite fuel suffices (the fuel sentinel
`outOfFuel` is never forced).  Third, the self-reducing rule
`X → <srai>X</srai>` answers `X` with the empty response: the runaway
`srai` chain is cut by the depth guard. -/
theorem respond_terminates :
    (∀ (sub : String → String) (fuel : Nat) (b : BotState)
        (text sid : String),
        text ≠ "" → (stackOf b sid).length > 100 →
        respondInner (fuel + 1) sub b text sid
          = (addSession b sid, .ok "")) ∧
    (∀ (sub : String → String) (b : BotState) (text sid : String),
        ∃ fuel, (respond fuel sub b text sid).2 ≠ .error .outOfFuel) ∧
    (respond 1000 (fun s => s) selfBot "X" "anonymous").2 = .ok "" := by
  refine ⟨?_, ?_, ?_⟩
  · intro sub fuel b text sid hne hdeep
    simp only [respondInner, run]
    rw [if_neg hne]
    try dsimp only
    rw [if_pos (by rw [stackOf_addSession]; exact hdeep)]
  · intro sub b text sid
    by_cases ht : text = ""
    · refine ⟨0, ?_⟩
      simp only [respond]
      rw [if_pos ht]
      simp
    · obtain ⟨f, hf⟩ := respondLoop_total sub sid (splitSentences text)
        (addSession b sid) ""
      refine ⟨f, ?_⟩
      simp only [respond]
      rw [if_neg ht]
      rcases hl : respondLoop f sub sid (addSession b sid)
          (splitSentences text) "" with ⟨b1, r⟩
      rw [hl] at hf
      cases r with
      | error err =>
        try dsimp only
        simpa using hf
      | ok acc =>
        try dsimp only
        split
        · simp
        · simp
  · rfl

/-- Witness for C8: the 101-deep state trips the guard at once, and the
demo bot has a completing fuel. -/
theorem respond_terminates_witness :
    respondInner (0 + 1) (fun s => s) deepBot "HI" "anonymous"
      = (addSession deepBot "anonymous", .ok "") ∧
    ∃ fuel, (respond fuel (fun s => s) demoBot "HI" "anonymous").2
      ≠ .error .outOfFuel :=
  ⟨respond_terminates.1 (fun s => s) 0 deepBot "HI" "anonymous"
      (by decide) (by decide),
    respond_terminates.2.1 (fun s => s) demoBot "HI" "anonymous"⟩

end Aiml
